import Mathlib

/-!
Verification of the upload → convert → poll → proof pipeline of the
"Cloaked" image-protection app.

The development shallowly embeds, from the TypeScript source:
  * the object-storage adapter helpers (`web/lib/supabase.ts`):
    public-URL generation and `getPathFromUrl`;
  * the API route handlers operating on `imagePairs` rows:
    `POST /api/images/upload`, `POST /api/images/convert`,
    `GET`/`DELETE /api/images/[id]`, `POST /api/images/[id]/proof`;
  * the data-access helper `deleteImagePair`;
  * the two client-side polling loops (`components/image-upload.tsx`
    with 60 attempts, and the older variant with 30 attempts).

External collaborators (Postgres via drizzle, Supabase storage, the
Python cloaking backend, Gemini) are modelled as oracles supplied per
request: the database is a list of rows threaded through the handlers,
and every storage / HTTP outcome is a parameter of the handler, so each
handler is a pure function of the request, the database and the oracle.
-/

namespace Cloaked

/-! ## Character-list utilities

`getPathFromUrl` in `web/lib/supabase.ts` parses a URL with the WHATWG
`URL` class and applies the regex
`/\/storage\/v1\/object\/public\/images\/(.+)/` to its `pathname`.
We model the string scanning on `List Char`. -/

/-- `leadsWith m s` is true when `m` is an initial segment of `s`
(the anchored test a regex engine performs at one scan position). -/
def leadsWith : List Char → List Char → Bool
  | [], _ => true
  | _ :: _, [] => false
  | a :: m, b :: s => a == b && leadsWith m s

/-- Suffix of `s` after the first occurrence of `m`; `none` when `m`
does not occur in `s`.  (For nonempty `m` this is the leftmost-match
semantics of `String.prototype.match` / `String.prototype.replace`.) -/
def afterFirst (m : List Char) : List Char → Option (List Char)
  | [] => none
  | c :: s => if leadsWith m (c :: s) then some ((c :: s).drop m.length) else afterFirst m s

/-- Replace the first occurrence of `m` by `r` (JS `String.replace`
with a string pattern); the input is returned unchanged when `m` does
not occur. -/
def replaceFirst (m r : List Char) : List Char → List Char
  | [] => []
  | c :: s => if leadsWith m (c :: s) then r ++ (c :: s).drop m.length else c :: replaceFirst m r s

theorem leadsWith_append_self (m xs : List Char) : leadsWith m (m ++ xs) = true := by
  induction m with
  | nil => rfl
  | cons a m ih => simp [leadsWith, ih]

theorem afterFirst_append_self (m xs : List Char) (hm : m ≠ []) :
    afterFirst m (m ++ xs) = some xs := by
  cases m with
  | nil => exact absurd rfl hm
  | cons a m =>
    show afterFirst (a :: m) ((a :: m) ++ xs) = some xs
    rw [List.cons_append, afterFirst, ← List.cons_append, leadsWith_append_self]
    simp [List.drop_left]

/-- Scanning for a pattern that starts with character `c₀` skips any
leading block free of `c₀`. -/
theorem afterFirst_append_of_notMem (c₀ : Char) (m l s : List Char)
    (h : c₀ ∉ l) : afterFirst (c₀ :: m) (l ++ s) = afterFirst (c₀ :: m) s := by
  induction l with
  | nil => rfl
  | cons a l ih =>
    have ha : a ≠ c₀ := fun he => h (he ▸ List.mem_cons_self a l)
    have hne : (c₀ == a) = false := by
      simp [beq_iff_eq]; exact fun he => ha he.symm
    show afterFirst (c₀ :: m) (a :: (l ++ s)) = afterFirst (c₀ :: m) s
    rw [afterFirst, if_neg (by simp [leadsWith, hne])]
    exact ih (fun hc => h (List.mem_cons_of_mem a hc))

theorem takeWhile_append_of_all (p : Char → Bool) (l s : List Char)
    (h : ∀ c ∈ l, p c = true) : (l ++ s).takeWhile p = l ++ s.takeWhile p := by
  induction l with
  | nil => rfl
  | cons a l ih =>
    show (a :: (l ++ s)).takeWhile p = a :: l ++ s.takeWhile p
    rw [List.takeWhile_cons, h a (List.mem_cons_self a l)]
    simp [ih (fun c hc => h c (List.mem_cons_of_mem a hc))]

theorem takeWhile_eq_self_of_all (p : Char → Bool) (l : List Char)
    (h : ∀ c ∈ l, p c = true) : l.takeWhile p = l := by
  have := takeWhile_append_of_all p l [] h
  simpa using this

theorem dropWhile_append_of_all (p : Char → Bool) (l s : List Char)
    (h : ∀ c ∈ l, p c = true) : (l ++ s).dropWhile p = s.dropWhile p := by
  induction l with
  | nil => rfl
  | cons a l ih =>
    show (a :: (l ++ s)).dropWhile p = s.dropWhile p
    rw [List.dropWhile_cons, h a (List.mem_cons_self a l)]
    simp only [if_true]
    exact ih (fun c hc => h c (List.mem_cons_of_mem a hc))

/-! ## Object Storage Adapter (`web/lib/supabase.ts`) -/

/-- Storage bucket name (`IMAGES_BUCKET = "images"`). -/
def IMAGES_BUCKET : String := "images"

/-- Shape of Supabase public object URLs, as produced by
`supabaseAdmin.storage.from(IMAGES_BUCKET).getPublicUrl(path)`:
`<base>/storage/v1/object/public/images/<path>`. -/
def getPublicUrl (base path : String) : String :=
  base ++ "/storage/v1/object/public/" ++ IMAGES_BUCKET ++ "/" ++ path

/-- Representative value of the `NEXT_PUBLIC_SUPABASE_URL` environment
variable (an absolute https origin). -/
def supaBase : String := "https://example.supabase.co"

/-- The literal marker the `getPathFromUrl` regex anchors on. -/
def markerChars : List Char := "/storage/v1/object/public/images/".data

/-! Model of `new URL(url).pathname` per the WHATWG URL standard, as
implemented by Node's `URL` class: ASCII tab and newline are stripped
from the input; for the special `https` scheme both `/` and `\` act as
path separators; each path segment is percent-encoded over the path
percent-encode set (with UTF-8 for non-ASCII); and dot segments (`.`,
`..` and their `%2e` spellings, case-insensitive) are removed while
parsing. -/

/-- Uppercase hex digit of `n < 16`, as the URL percent-encoder
emits. -/
def hexDigit (n : Nat) : Char :=
  Char.ofNat (if n < 10 then 48 + n else 55 + n)

/-- `%XY` percent-encoding of one byte. -/
def pctByte (b : Nat) : List Char :=
  ['%', hexDigit (b / 16), hexDigit (b % 16)]

/-- UTF-8 bytes of a code point. -/
def utf8Bytes (n : Nat) : List Nat :=
  if n < 0x80 then [n]
  else if n < 0x800 then [0xc0 + n / 64, 0x80 + n % 64]
  else if n < 0x10000 then [0xe0 + n / 4096, 0x80 + n / 64 % 64, 0x80 + n % 64]
  else [0xf0 + n / 262144, 0x80 + n / 4096 % 64, 0x80 + n / 64 % 64, 0x80 + n % 64]

/-- Characters the URL serializer keeps verbatim in a path segment:
printable ASCII outside the WHATWG path percent-encode set, which is
the C0 controls, space, DEL and non-ASCII (outside 0x21..0x7e) plus
the double quote (0x22), number sign (0x23), less-than (0x3c),
greater-than (0x3e), question mark (0x3f), backquote (0x60) and the
two curly brackets (0x7b, 0x7d).  The percent sign itself is kept
verbatim. -/
def pathPlainChar (c : Char) : Bool :=
  (0x21 ≤ c.toNat && c.toNat ≤ 0x7e) &&
    !(c.toNat == 0x22 || c.toNat == 0x23 || c.toNat == 0x3c || c.toNat == 0x3e ||
      c.toNat == 0x3f || c.toNat == 0x60 || c.toNat == 0x7b || c.toNat == 0x7d)

/-- Percent-encode one character for a path segment. -/
def encodeChar (c : Char) : List Char :=
  if pathPlainChar c then [c] else ((utf8Bytes c.toNat).map pctByte).flatten

/-- Percent-encode a whole segment. -/
def encodeSeg (s : List Char) : List Char :=
  (s.map encodeChar).flatten

/-- In a special-scheme URL both `/` and `\` separate path segments. -/
def isSep (c : Char) : Bool :=
  c == '/' || c == '\\'

/-- Split a raw path on its separators (`split` that keeps empty
segments; never returns an empty list). -/
def splitSlash : List Char → List (List Char)
  | [] => [[]]
  | c :: r =>
    if isSep c then [] :: splitSlash r
    else
      match splitSlash r with
      | [] => [[c]]
      | s :: rest => (c :: s) :: rest

/-- The spellings the URL parser accepts for one dot. -/
def dotForms : List (List Char) :=
  [['.'], ['%', '2', 'e'], ['%', '2', 'E']]

/-- A single-dot path segment (`.` or `%2e`, case-insensitive). -/
def isSingleDot (s : List Char) : Bool :=
  dotForms.contains s

/-- A double-dot path segment (any concatenation of two dot forms). -/
def isDoubleDot (s : List Char) : Bool :=
  ((dotForms.map (fun a => dotForms.map (fun b => a ++ b))).flatten).contains s

/-- One step of the WHATWG path state: a double-dot segment pops the
last stored segment, a single-dot segment is dropped, anything else is
appended; a trailing dot segment leaves a trailing empty segment. -/
def stepSeg (stack : List (List Char)) (s : List Char) (isLast : Bool) :
    List (List Char) :=
  if isDoubleDot s then stack.dropLast ++ (if isLast then [[]] else [])
  else if isSingleDot s then stack ++ (if isLast then [[]] else [])
  else stack ++ [s]

def normGo (stack : List (List Char)) : List (List Char) → List (List Char)
  | [] => stack
  | s :: rest => normGo (stepSeg stack s rest.isEmpty) rest

/-- Remove dot segments from a segment list. -/
def normSegs (segs : List (List Char)) : List (List Char) :=
  normGo [] segs

/-- Join segments back with `/` (inverse of `splitSlash` on
backslash-free input). -/
def joinSlash : List (List Char) → List Char
  | [] => []
  | [s] => s
  | s :: rest => s ++ '/' :: joinSlash rest

/-- Serialize the path portion (the characters after the separator
ending the host) as `URL.pathname` does: split, percent-encode,
remove dot segments, rejoin behind a leading slash. -/
def normalizePathname (l : List Char) : List Char :=
  '/' :: joinSlash (normSegs ((splitSlash l).map encodeSeg))

/-- The URL parser first strips every ASCII tab and newline from its
input. -/
def stripTabNl (l : List Char) : List Char :=
  l.filter (fun c => !(c == '\t' || c == '\n' || c == '\r'))

/-- Model of `new URL(url).pathname` for URLs of the shape
`scheme://host/path[?query][#fragment]`: tabs and newlines are
stripped, the part after the first `://` is truncated at the first `?`
or `#`, the host ends at the first `/` or `\`, and the remaining path
portion is normalized (percent-encoding and dot-segment removal).  A
string with no `://` makes the `URL` constructor throw, which
`getPathFromUrl` catches, hence `none`. -/
def urlPathname (url : List Char) : Option (List Char) :=
  (afterFirst [':', '/', '/'] (stripTabNl url)).map fun rest =>
    normalizePathname
      (((rest.takeWhile (fun c => !(c == '?' || c == '#'))).dropWhile
        (fun c => !(isSep c))).drop 1)

/-- `getPathFromUrl` (`web/lib/supabase.ts`): extract the
storage-relative path from a public URL, returning `null` on any
mismatch instead of raising.  The regex capture group `(.+)` requires
a nonempty remainder. -/
def getPathFromUrl (url : String) : Option String :=
  (urlPathname url.data).bind fun p =>
    (afterFirst markerChars p).bind fun rest =>
      if rest.isEmpty then none else some (String.mk rest)

theorem markerChars_eq : markerChars = '/' :: "storage/v1/object/public/images/".data := by
  decide

/-- The marker without its leading slash. -/
def markerTail : List Char := "storage/v1/object/public/images/".data

theorem markerChars_cons : markerChars = '/' :: markerTail := by
  decide

theorem splitSlash_ne_nil : ∀ l : List Char, splitSlash l ≠ [] := by
  intro l
  cases l with
  | nil => simp [splitSlash]
  | cons c r =>
    rw [splitSlash]
    by_cases hs : isSep c = true
    · rw [if_pos hs]
      simp
    · rw [if_neg hs]
      cases hr : splitSlash r with
      | nil => simp
      | cons s rest => simp

theorem splitSlash_append_sep (a b : List Char) (ha : ∀ c ∈ a, isSep c = false) :
    splitSlash (a ++ '/' :: b) = a :: splitSlash b := by
  induction a with
  | nil =>
    show splitSlash ('/' :: b) = [] :: splitSlash b
    rw [splitSlash, if_pos (by decide : isSep '/' = true)]
  | cons c a ih =>
    show splitSlash (c :: (a ++ '/' :: b)) = (c :: a) :: splitSlash b
    rw [splitSlash, if_neg (by simp [ha c (List.mem_cons_self c a)])]
    rw [ih (fun x hx => ha x (List.mem_cons_of_mem c hx))]

theorem mem_splitSlash (l : List Char) :
    ∀ seg ∈ splitSlash l, ∀ c ∈ seg, c ∈ l := by
  induction l with
  | nil =>
    intro seg hseg c hc
    rw [splitSlash] at hseg
    simp only [List.mem_singleton] at hseg
    subst hseg
    simp at hc
  | cons a r ih =>
    intro seg hseg c hc
    rw [splitSlash] at hseg
    by_cases hs : isSep a = true
    · rw [if_pos hs] at hseg
      rcases List.mem_cons.mp hseg with he | hm
      · subst he
        simp at hc
      · exact List.mem_cons_of_mem a (ih seg hm c hc)
    · rw [if_neg hs] at hseg
      cases hr : splitSlash r with
      | nil => exact absurd hr (splitSlash_ne_nil r)
      | cons s rest =>
        rw [hr] at hseg
        rcases List.mem_cons.mp hseg with he | hm
        · subst he
          rcases List.mem_cons.mp hc with hce | hcs
          · rw [hce]
            exact List.mem_cons_self a r
          · refine List.mem_cons_of_mem a (ih s ?_ c hcs)
            rw [hr]
            exact List.mem_cons_self s rest
        · refine List.mem_cons_of_mem a (ih seg ?_ c hc)
          rw [hr]
          exact List.mem_cons_of_mem s hm

theorem encodeChar_plain (c : Char) (h : pathPlainChar c = true) : encodeChar c = [c] := by
  rw [encodeChar, if_pos h]

theorem encodeSeg_eq_self (s : List Char) (h : ∀ c ∈ s, pathPlainChar c = true) :
    encodeSeg s = s := by
  induction s with
  | nil => rfl
  | cons c s ih =>
    show ((c :: s).map encodeChar).flatten = c :: s
    rw [List.map_cons, List.flatten_cons, encodeChar_plain c (h c (List.mem_cons_self c s))]
    rw [show (List.map encodeChar s).flatten = s from
      ih (fun x hx => h x (List.mem_cons_of_mem c hx))]
    rfl

theorem map_encodeSeg_eq_self (segs : List (List Char))
    (h : ∀ s ∈ segs, encodeSeg s = s) : segs.map encodeSeg = segs := by
  induction segs with
  | nil => rfl
  | cons s segs ih =>
    rw [List.map_cons, h s (List.mem_cons_self s segs),
      ih (fun x hx => h x (List.mem_cons_of_mem s hx))]

theorem normGo_no_dots (segs : List (List Char)) :
    ∀ stack, (∀ s ∈ segs, isSingleDot s = false ∧ isDoubleDot s = false) →
      normGo stack segs = stack ++ segs := by
  induction segs with
  | nil =>
    intro stack _
    rw [normGo]
    simp
  | cons s rest ih =>
    intro stack hall
    obtain ⟨h1, h2⟩ := hall s (List.mem_cons_self s rest)
    rw [normGo, stepSeg, if_neg (by simp [h2]), if_neg (by simp [h1])]
    rw [ih (stack ++ [s]) (fun x hx => hall x (List.mem_cons_of_mem s hx))]
    simp

theorem normSegs_no_dots (segs : List (List Char))
    (h : ∀ s ∈ segs, isSingleDot s = false ∧ isDoubleDot s = false) :
    normSegs segs = segs := by
  rw [normSegs, normGo_no_dots segs [] h]
  rfl

theorem joinSlash_cons (s : List Char) (rest : List (List Char)) (h : rest ≠ []) :
    joinSlash (s :: rest) = s ++ '/' :: joinSlash rest := by
  cases rest with
  | nil => exact absurd rfl h
  | cons r rs => rfl

theorem joinSlash_splitSlash (l : List Char) (hl : ∀ c ∈ l, c ≠ '\\') :
    joinSlash (splitSlash l) = l := by
  induction l with
  | nil => rfl
  | cons c r ih =>
    rw [splitSlash]
    by_cases hs : isSep c = true
    · have hc : c = '/' := by
        rw [isSep] at hs
        rcases (Bool.or_eq_true _ _).mp hs with h1 | h2
        · exact beq_iff_eq.mp h1
        · exact absurd (beq_iff_eq.mp h2) (hl c (List.mem_cons_self c r))
      rw [if_pos hs, joinSlash_cons [] (splitSlash r) (splitSlash_ne_nil r),
        ih (fun x hx => hl x (List.mem_cons_of_mem c hx)), hc]
      rfl
    · rw [if_neg hs]
      cases hr : splitSlash r with
      | nil => exact absurd hr (splitSlash_ne_nil r)
      | cons s rest =>
        have ih2 : joinSlash (s :: rest) = r := by
          rw [← hr]
          exact ih (fun x hx => hl x (List.mem_cons_of_mem c hx))
        cases rest with
        | nil =>
          show c :: s = c :: r
          rw [show s = r from ih2]
        | cons r2 rs =>
          show (c :: s) ++ '/' :: joinSlash (r2 :: rs) = c :: r
          rw [← ih2]
          rfl

theorem pathPlainChar_facts (c : Char) (h : pathPlainChar c = true) :
    c ≠ '?' ∧ c ≠ '#' ∧ c ≠ '\t' ∧ c ≠ '\n' ∧ c ≠ '\r' := by
  refine ⟨?_, ?_, ?_, ?_, ?_⟩
  all_goals
    intro he
    rw [he] at h
    exact absurd h (by decide)

/-- Round-trip helper: for an https origin `"https://" ++ h` whose host
is made of plain characters other than `:`, `/` and `\`, and a
nonempty path of plain URL-path characters (no backslash) none of
whose segments is a dot segment, parsing the generated public URL
returns the path unchanged. -/
theorem getPathFromUrl_getPublicUrl (h path : String)
    (hh : ∀ c ∈ h.data, pathPlainChar c = true ∧ c ≠ ':' ∧ c ≠ '/' ∧ c ≠ '\\')
    (hp : path ≠ "")
    (hplain : ∀ c ∈ path.data, pathPlainChar c = true ∧ c ≠ '\\')
    (hdots : ∀ seg ∈ splitSlash path.data,
      isSingleDot seg = false ∧ isDoubleDot seg = false) :
    getPathFromUrl (getPublicUrl ("https://" ++ h) path) = some path := by
  have hmerge : getPublicUrl ("https://" ++ h) path
      = "https://" ++ (h ++ ("/storage/v1/object/public/images/" ++ path)) := by
    unfold getPublicUrl IMAGES_BUCKET
    rw [String.append_assoc, String.append_assoc, String.append_assoc,
      String.append_assoc]
    have hlit : ("/storage/v1/object/public/" ++ ("images" ++ ("/" ++ path)))
        = "/storage/v1/object/public/images/" ++ path := by
      rw [← String.append_assoc, ← String.append_assoc]
      have : ("/storage/v1/object/public/" ++ "images" ++ "/")
          = "/storage/v1/object/public/images/" := by decide
      rw [this]
    rw [hlit]
  have hdata : (getPublicUrl ("https://" ++ h) path).data
      = "https".data ++ ([':', '/', '/'] ++ (h.data ++ (markerChars ++ path.data))) := by
    rw [hmerge]
    rw [String.data_append, String.data_append, String.data_append]
    have : "https://".data = "https".data ++ [':', '/', '/'] := by decide
    rw [this, markerChars, List.append_assoc]
  have hkeepA : ∀ c ∈ "https".data, (!(c == '\t' || c == '\n' || c == '\r')) = true := by
    decide
  have hkeepB : ∀ c ∈ [':', '/', '/'], (!(c == '\t' || c == '\n' || c == '\r')) = true := by
    decide
  have hkeepM : ∀ c ∈ markerChars, (!(c == '\t' || c == '\n' || c == '\r')) = true := by
    decide
  have hkeep : ∀ c ∈ (getPublicUrl ("https://" ++ h) path).data,
      (!(c == '\t' || c == '\n' || c == '\r')) = true := by
    rw [hdata]
    intro c hc
    rcases List.mem_append.mp hc with hc | hc
    · exact hkeepA c hc
    rcases List.mem_append.mp hc with hc | hc
    · exact hkeepB c hc
    rcases List.mem_append.mp hc with hc | hc
    · obtain ⟨hcp, _, _, _⟩ := hh c hc
      obtain ⟨_, _, h3, h4, h5⟩ := pathPlainChar_facts c hcp
      simp [h3, h4, h5]
    rcases List.mem_append.mp hc with hc | hc
    · exact hkeepM c hc
    · obtain ⟨hcp, _⟩ := hplain c hc
      obtain ⟨_, _, h3, h4, h5⟩ := pathPlainChar_facts c hcp
      simp [h3, h4, h5]
  have hstrip : stripTabNl (getPublicUrl ("https://" ++ h) path).data
      = (getPublicUrl ("https://" ++ h) path).data := by
    rw [stripTabNl]
    exact List.filter_eq_self.mpr hkeep
  have hcolon : (':' : Char) ∉ "https".data := by decide
  have hstep1 : afterFirst [':', '/', '/']
        (stripTabNl (getPublicUrl ("https://" ++ h) path).data)
      = some (h.data ++ (markerChars ++ path.data)) := by
    rw [hstrip, hdata, afterFirst_append_of_notMem ':' ['/', '/'] _ _ hcolon,
      afterFirst_append_self _ _ (by decide)]
  have hmkq : ∀ c ∈ markerChars, (!(c == '?' || c == '#')) = true := by decide
  have hallq : ∀ c ∈ h.data ++ (markerChars ++ path.data),
      (!(c == '?' || c == '#')) = true := by
    intro c hc
    rcases List.mem_append.mp hc with hc | hc
    · obtain ⟨hcp, _, _, _⟩ := hh c hc
      obtain ⟨h1, h2, _, _, _⟩ := pathPlainChar_facts c hcp
      simp [h1, h2]
    rcases List.mem_append.mp hc with hc | hc
    · exact hmkq c hc
    · obtain ⟨hcp, _⟩ := hplain c hc
      obtain ⟨h1, h2, _, _, _⟩ := pathPlainChar_facts c hcp
      simp [h1, h2]
  have hsepH : ∀ c ∈ h.data, (!(isSep c)) = true := by
    intro c hc
    obtain ⟨_, _, h3, h4⟩ := hh c hc
    have e1 : (c == '/') = false := beq_eq_false_iff_ne.mpr h3
    have e2 : (c == '\\') = false := beq_eq_false_iff_ne.mpr h4
    rw [isSep, e1, e2]
    rfl
  have hdropped : ((h.data ++ (markerChars ++ path.data)).dropWhile
        (fun c => !(isSep c))).drop 1
      = markerTail ++ path.data := by
    rw [dropWhile_append_of_all _ _ _ hsepH, markerChars_cons, List.cons_append,
      List.dropWhile_cons_of_neg (by decide)]
    rfl
  have hplainSegs : ∀ s ∈ splitSlash path.data, encodeSeg s = s := by
    intro s hs
    exact encodeSeg_eq_self s (fun c hc => (hplain c (mem_splitSlash path.data s hs c hc)).1)
  have hsplitM : splitSlash (markerTail ++ path.data)
      = "storage".data :: "v1".data :: "object".data :: "public".data :: "images".data
        :: splitSlash path.data := by
    rw [show markerTail ++ path.data
        = "storage".data ++ '/' :: ("v1/object/public/images/".data ++ path.data) from rfl]
    rw [splitSlash_append_sep _ _ (by decide)]
    rw [show "v1/object/public/images/".data ++ path.data
        = "v1".data ++ '/' :: ("object/public/images/".data ++ path.data) from rfl]
    rw [splitSlash_append_sep _ _ (by decide)]
    rw [show "object/public/images/".data ++ path.data
        = "object".data ++ '/' :: ("public/images/".data ++ path.data) from rfl]
    rw [splitSlash_append_sep _ _ (by decide)]
    rw [show "public/images/".data ++ path.data
        = "public".data ++ '/' :: ("images/".data ++ path.data) from rfl]
    rw [splitSlash_append_sep _ _ (by decide)]
    rw [show "images/".data ++ path.data = "images".data ++ '/' :: path.data from rfl]
    rw [splitSlash_append_sep _ _ (by decide)]
  have hnodots : ∀ s ∈ ("storage".data :: "v1".data :: "object".data :: "public".data
      :: "images".data :: splitSlash path.data),
      isSingleDot s = false ∧ isDoubleDot s = false := by
    intro s hs
    rcases List.mem_cons.mp hs with he | hs
    · rw [he]
      exact ⟨by decide, by decide⟩
    rcases List.mem_cons.mp hs with he | hs
    · rw [he]
      exact ⟨by decide, by decide⟩
    rcases List.mem_cons.mp hs with he | hs
    · rw [he]
      exact ⟨by decide, by decide⟩
    rcases List.mem_cons.mp hs with he | hs
    · rw [he]
      exact ⟨by decide, by decide⟩
    rcases List.mem_cons.mp hs with he | hs
    · rw [he]
      exact ⟨by decide, by decide⟩
    · exact hdots s hs
  have hnorm : normalizePathname (markerTail ++ path.data) = markerChars ++ path.data := by
    rw [normalizePathname, hsplitM]
    rw [List.map_cons, List.map_cons, List.map_cons, List.map_cons, List.map_cons]
    rw [show encodeSeg "storage".data = "storage".data from by decide]
    rw [show encodeSeg "v1".data = "v1".data from by decide]
    rw [show encodeSeg "object".data = "object".data from by decide]
    rw [show encodeSeg "public".data = "public".data from by decide]
    rw [show encodeSeg "images".data = "images".data from by decide]
    rw [map_encodeSeg_eq_self _ hplainSegs]
    rw [normSegs_no_dots _ hnodots]
    rw [joinSlash_cons _ _ (List.cons_ne_nil _ _)]
    rw [joinSlash_cons _ _ (List.cons_ne_nil _ _)]
    rw [joinSlash_cons _ _ (List.cons_ne_nil _ _)]
    rw [joinSlash_cons _ _ (List.cons_ne_nil _ _)]
    rw [joinSlash_cons _ _ (splitSlash_ne_nil path.data)]
    rw [joinSlash_splitSlash path.data (fun c hc => (hplain c hc).2)]
    rw [markerChars_cons]
    rfl
  have hpd : path.data ≠ [] := by
    intro hd
    exact hp (by rw [show path = String.mk path.data from rfl, hd])
  rw [getPathFromUrl, urlPathname, hstep1, Option.map_some']
  rw [takeWhile_eq_self_of_all _ _ hallq, hdropped, hnorm]
  rw [Option.some_bind, afterFirst_append_self _ _ (by decide), Option.some_bind]
  simp [List.isEmpty_iff, hpd]

/-! ## Data model

One durable entity: the `imagePairs` row.  The drizzle schema file is
not part of the sources; the fields below are the ones the verified
routes read and write (`createdAt`/`updatedAt`/`proofUrl` are never
consulted by any claim and are omitted).  `proofAnalysis` stores the
JSON-serialized analysis string, exactly as the route persists it. -/

inductive Status where
  | pending
  | processing
  | completed
  | failed
deriving DecidableEq, Repr

structure Row where
  id : String
  userId : String
  originalUrl : String
  protectedUrl : Option String
  status : Status
  proofGeneratedAt : Option Nat
  proofOriginalSwapUrl : Option String
  proofProtectedSwapUrl : Option String
  proofAnalysis : Option String
deriving DecidableEq, Repr

/-- The database table, threaded through handlers. -/
abbrev DB := List Row

/-- `select().from(imagePairs).where(eq(imagePairs.id, id))` followed by
destructuring the first row. -/
def getRow (db : DB) (id : String) : Option Row :=
  List.find? (fun r => r.id == id) db

/-- `select().from(imagePairs).where(and(eq(imagePairs.id, id),
eq(imagePairs.userId, userId)))`, first row: the tenant-scoped lookup
used by the GET / DELETE / proof routes. -/
def getRowFor (db : DB) (id userId : String) : Option Row :=
  List.find? (fun r => r.id == id && r.userId == userId) db

/-- `update(imagePairs).set(...).where(eq(imagePairs.id, id))`:
rewrite every row whose `id` matches (the primary key makes at most one
match in well-formed databases). -/
def updateById (db : DB) (id : String) (f : Row → Row) : DB :=
  List.map (fun r => if r.id == id then f r else r) db

/-- JavaScript truthiness of a nullable string column: `null` and the
empty string are falsy, everything else truthy. -/
def strTruthy : Option String → Bool
  | none => false
  | some s => !(s == "")

/-! ## External collaborators

Every storage / HTTP outcome a handler can observe is provided by an
oracle record, one per request, so handlers stay pure functions. -/

/-- Metadata block returned by the prove backend for one swap attempt. -/
structure ProofMetadata where
  status : String
  reason : String
  confidence : Nat
  message : String
deriving DecidableEq, Repr

/-- Parsed analysis produced by `analyzeWithGemini`. -/
structure ProofAnalysis where
  originalScore : Nat
  protectedScore : Nat
  effectiveness : Nat
  explanation : String
  summary : String
deriving DecidableEq, Repr

/-- Body of a successful `POST /prove/v2` response. -/
structure ProveData where
  originalSwap : String
  protectedSwap : String
  originalMeta : ProofMetadata
  protectedMeta : ProofMetadata
deriving DecidableEq, Repr

/-- Per-request oracle for everything outside the process: storage
download/upload outcomes, the cloaking and prove backends, the Gemini
key and call outcome, the generated identifiers, the fire-and-forget
trigger outcome, and the clock. -/
structure Ext where
  download : String → Except String String
  uploadErr : String → Option String
  cloak : String → String → Except String String
  prove : String → String → Except Unit ProveData
  geminiKey : Bool
  gemini : Option ProofAnalysis
  fileId : String
  rowId : String
  triggerOk : Bool
  now : Nat

/-- `uploadImage` (`web/lib/supabase.ts`): on storage failure returns
the tagged error; on success derives the public URL of the stored
path via `getPublicUrl`. -/
def uploadImage (ext : Ext) (path : String) : Except String String :=
  match ext.uploadErr path with
  | some e => .error e
  | none => .ok (getPublicUrl supaBase path)

/-- `JSON.stringify` of a `ProofAnalysis` (field order of the object
literal in the route). -/
def stringifyAnalysis (a : ProofAnalysis) : String :=
  "\x7b\x22originalScore\x22:" ++ toString a.originalScore ++
  ",\x22protectedScore\x22:" ++ toString a.protectedScore ++
  ",\x22effectiveness\x22:" ++ toString a.effectiveness ++
  ",\x22explanation\x22:\x22" ++ a.explanation ++
  "\x22,\x22summary\x22:\x22" ++ a.summary ++ "\x22\x7d"

/-- Fallback analysis returned when no `GEMINI_API_KEY` is configured
(`[id]/proof/route.ts`, `analyzeWithGemini`, first fallback). -/
def fallbackNoKey (om pm : ProofMetadata) : ProofAnalysis where
  originalScore := if om.status == "success" then 85 else 20
  protectedScore := if pm.status == "success" then 85 else 12
  effectiveness := if !(pm.status == "success") && om.status == "success" then 91 else 45
  explanation := "Cloaked applies invisible adversarial perturbations that disrupt AI facial recognition systems. These perturbations confuse the neural networks used for face detection and swapping, causing them to fail at locating facial landmarks accurately."
  summary := "Your photo is protected from AI face-swapping and deepfake creation."

/-- Fallback analysis returned when the Gemini call raises or its
response holds no JSON (second fallback). -/
def fallbackOnError (om pm : ProofMetadata) : ProofAnalysis where
  originalScore := if om.status == "success" then 87 else 25
  protectedScore := if pm.status == "success" then 75 else 8
  effectiveness := 91
  explanation := "The adversarial perturbations added by Cloaked confuse the AI's facial landmark detection and feature extraction processes. This disrupts the embedding space calculations that face-swap models rely on, causing them to produce corrupted or failed outputs."
  summary := "Your image is now shielded from deepfake creation and AI face manipulation."

/-- `analyzeWithGemini`: without an API key the first fallback is
returned; with a key, a successful call yields the model's JSON, and
any error yields the second fallback verbatim. -/
def analyzeWithGemini (ext : Ext) (om pm : ProofMetadata) : ProofAnalysis :=
  if ext.geminiKey then
    match ext.gemini with
    | some a => a
    | none => fallbackOnError om pm
  else fallbackNoKey om pm

/-! ## Route handlers

Each handler returns its response, the database after the request, and
the list of external side effects it performed (storage reads/writes,
backend calls).  Database reads are not side effects. -/

/-- External side effects observable from a request. -/
inductive Ev where
  | storeUpload (path : String)
  | storeDownload (path : String)
  | storeDelete (path : String)
  | cloakCall
  | proveCall
  | convertTrigger
deriving DecidableEq, Repr

/-- `ALLOWED_TYPES` in `upload/route.ts`. -/
def ALLOWED_TYPES : List String := ["image/png", "image/jpeg", "image/webp"]

/-- `MAX_SIZE = 10 * 1024 * 1024` in `upload/route.ts`. -/
def MAX_SIZE : Nat := 10 * 1024 * 1024

/-- `file.name.split(".").pop() || "png"`: the segment after the last
`.` (the whole name when it has no dot), defaulting to `"png"` when
that segment is empty. -/
def extOf (name : String) : String :=
  let e := String.mk ((name.data.reverse.takeWhile (fun c => !(c == '.'))).reverse)
  if e == "" then "png" else e

/-- Multipart file as the upload route sees it. -/
structure UFile where
  ftype : String
  size : Nat
  name : String
deriving DecidableEq, Repr

/-- Upload request: authenticated session (if any) and the form file. -/
structure UploadReq where
  session : Option String
  file : Option UFile
deriving DecidableEq, Repr

inductive UploadResp where
  | unauthorized
  | noFile
  | badType
  | tooLarge
  | uploadFailed (e : String)
  | serverError
  | ok (id originalUrl : String) (status : Status)
deriving DecidableEq, Repr

def UploadResp.statusCode : UploadResp → Nat
  | .unauthorized => 401
  | .noFile => 400
  | .badType => 400
  | .tooLarge => 400
  | .uploadFailed _ => 500
  | .serverError => 500
  | .ok .. => 200

/-- `POST /api/images/upload` (`upload/route.ts`): authenticate,
validate content type and size, write the original blob, insert the
row with `status=pending`, then fire the conversion trigger; a trigger
failure is compensated by setting the row to `failed` (the response is
already the pending row either way). A duplicate generated row id makes
the insert throw, which the outer catch maps to a 500 with no row. -/
def uploadPost (ext : Ext) (db : DB) (req : UploadReq) : UploadResp × DB × List Ev :=
  match req.session with
  | none => (.unauthorized, db, [])
  | some userId =>
    match req.file with
    | none => (.noFile, db, [])
    | some f =>
      if !(ALLOWED_TYPES.contains f.ftype) then (.badType, db, [])
      else if f.size > MAX_SIZE then (.tooLarge, db, [])
      else
        let storagePath := "originals/" ++ userId ++ "/" ++ ext.fileId ++ "." ++ extOf f.name
        match uploadImage ext storagePath with
        | .error e => (.uploadFailed e, db, [.storeUpload storagePath])
        | .ok url =>
          if List.any db (fun r => r.id == ext.rowId) then
            (.serverError, db, [.storeUpload storagePath])
          else
            let row : Row :=
              { id := ext.rowId, userId := userId, originalUrl := url,
                protectedUrl := none, status := .pending,
                proofGeneratedAt := none, proofOriginalSwapUrl := none,
                proofProtectedSwapUrl := none, proofAnalysis := none }
            let db1 : DB := List.append db [row]
            let db2 :=
              if ext.triggerOk then db1
              else updateById db1 ext.rowId (fun r => { r with status := .failed })
            (.ok ext.rowId url .pending, db2, [.storeUpload storagePath, .convertTrigger])

inductive ConvertResp where
  | missingId
  | notFound
  | parseFailed
  | downloadFailed (e : String)
  | cloakFailed
  | uploadFailed (e : String)
  | ok (id originalUrl protectedUrl : String) (status : Status)
deriving DecidableEq, Repr

def ConvertResp.statusCode : ConvertResp → Nat
  | .missingId => 400
  | .notFound => 404
  | .parseFailed => 500
  | .downloadFailed _ => 500
  | .cloakFailed => 500
  | .uploadFailed _ => 500
  | .ok .. => 200

/-- `POST /api/images/convert` (`convert/route.ts`).  The route reads
no session: `session` is the identity of the caller, which the source
never consults — any caller may convert any row by id.  The row is set
to `processing`, then each sub-step failure (original URL unparsable,
original download failed, cloak backend non-2xx, protected upload
failed) sets `failed` and returns a 500; only full success writes
`protectedUrl` together with `status=completed` in one update. -/
def convertPost (ext : Ext) (session : Option String) (db : DB)
    (body : Option String) (strength : String) : ConvertResp × DB :=
  match body with
  | none => (.missingId, db)
  | some imagePairId =>
    if imagePairId == "" then (.missingId, db)
    else
      match getRow db imagePairId with
      | none => (.notFound, db)
      | some imagePair =>
        let db1 := updateById db imagePairId (fun r => { r with status := .processing })
        match getPathFromUrl imagePair.originalUrl with
        | none =>
          (.parseFailed, updateById db1 imagePairId (fun r => { r with status := .failed }))
        | some originalPath =>
          match ext.download originalPath with
          | .error e =>
            (.downloadFailed e,
              updateById db1 imagePairId (fun r => { r with status := .failed }))
          | .ok base64Image =>
            match ext.cloak base64Image strength with
            | .error _ =>
              (.cloakFailed, updateById db1 imagePairId (fun r => { r with status := .failed }))
            | .ok cloaked =>
              let protectedPath :=
                String.mk (replaceFirst "originals/".data "protected/".data originalPath.data)
              match uploadImage ext protectedPath with
              | .error e =>
                (.uploadFailed e,
                  updateById db1 imagePairId (fun r => { r with status := .failed }))
              | .ok url =>
                let _ := cloaked
                let db2 := updateById db1 imagePairId
                  (fun r => { r with protectedUrl := some url, status := .completed })
                (.ok imagePairId imagePair.originalUrl url .completed, db2)

inductive GetResp where
  | unauthorized
  | notFound
  | ok (r : Row)
deriving DecidableEq, Repr

/-- `GET /api/images/[id]`: tenant-scoped read. -/
def imageGet (db : DB) (session : Option String) (id : String) : GetResp :=
  match session with
  | none => .unauthorized
  | some uid =>
    match getRowFor db id uid with
    | none => .notFound
    | some r => .ok r

inductive DelResp where
  | unauthorized
  | notFound
  | success
deriving DecidableEq, Repr

/-- `DELETE /api/images/[id]`: tenant-scoped lookup, best-effort blob
deletes, then row delete by id; 404 when no row matches both id and
caller. -/
def imageDelete (db : DB) (session : Option String) (id : String) : DelResp × DB × List Ev :=
  match session with
  | none => (.unauthorized, db, [])
  | some uid =>
    match getRowFor db id uid with
    | none => (.notFound, db, [])
    | some imagePair =>
      let evs1 := match getPathFromUrl imagePair.originalUrl with
        | some p => [Ev.storeDelete p]
        | none => []
      let evs2 := match imagePair.protectedUrl with
        | some pu =>
          if pu == "" then []
          else match getPathFromUrl pu with
            | some p => [Ev.storeDelete p]
            | none => []
        | none => []
      (.success, List.filter (fun r => !(r.id == id)) db, evs1 ++ evs2)

/-- `deleteImagePair` (data-access helper): deletes by id and returns
`true` unconditionally, row present or not. -/
def deleteImagePair (db : DB) (id : String) : Bool × DB :=
  (true, List.filter (fun r => !(r.id == id)) db)

inductive ProofResp where
  | unauthorized
  | notFound
  | notProtected
  | pathFailed
  | downloadFailed
  | proveFailed
  | storageFailed (originalSwapBase64 protectedSwapBase64 : String) (analysis : ProofAnalysis)
  | cachedHit (originalSwapUrl protectedSwapUrl : String) (analysisJson : String)
      (generatedAt : Nat)
  | fresh (originalSwapUrl protectedSwapUrl : String) (analysis : ProofAnalysis)
deriving DecidableEq, Repr

/-- The `cached` flag of the response body (`true` only on a cache
hit). -/
def ProofResp.cachedFlag : ProofResp → Bool
  | .cachedHit .. => true
  | _ => false

/-- The `storageFailed` flag of the response body. -/
def ProofResp.storageFailedFlag : ProofResp → Bool
  | .storageFailed .. => true
  | _ => false

def ProofResp.statusCode : ProofResp → Nat
  | .unauthorized => 401
  | .notFound => 404
  | .notProtected => 400
  | .pathFailed => 500
  | .downloadFailed => 500
  | .proveFailed => 500
  | .storageFailed .. => 200
  | .cachedHit .. => 200
  | .fresh .. => 200

/-- The cache-hit test of the proof route: JS truthiness of the four
proof columns (`proofGeneratedAt && proofOriginalSwapUrl &&
proofProtectedSwapUrl && proofAnalysis`); a present `Date` is always
truthy, a present string only when nonempty. -/
def cacheHit (r : Row) : Bool :=
  r.proofGeneratedAt.isSome && strTruthy r.proofOriginalSwapUrl &&
    strTruthy r.proofProtectedSwapUrl && strTruthy r.proofAnalysis

/-- Storage path of the original-photo swap artifact. -/
def origSwapPath (uid id : String) : String :=
  "proofs/" ++ uid ++ "/" ++ id ++ "_original_swap.png"

/-- Storage path of the protected-photo swap artifact. -/
def protSwapPath (uid id : String) : String :=
  "proofs/" ++ uid ++ "/" ++ id ++ "_protected_swap.png"

/-- `POST /api/images/[id]/proof` (`[id]/proof/route.ts`): tenant-scoped
lookup; 400 unless `protectedUrl` is truthy; immediate cached response
when the four proof fields are truthy (the response carries the stored
values — `analysisJson` is the stored serialized string the route
passes through `JSON.parse`); otherwise download both blobs, call the
prove backend, analyze, upload both swap images, and either persist the
four proof fields in one update (uploads ok) or return the base64
payload with `storageFailed:true` and leave the row untouched. -/
def proofPost (ext : Ext) (session : Option String) (db : DB) (id : String) :
    ProofResp × DB × List Ev :=
  match session with
  | none => (.unauthorized, db, [])
  | some uid =>
    match getRowFor db id uid with
    | none => (.notFound, db, [])
    | some imagePair =>
      if !(strTruthy imagePair.protectedUrl) then (.notProtected, db, [])
      else if cacheHit imagePair then
        (.cachedHit (imagePair.proofOriginalSwapUrl.getD "")
          (imagePair.proofProtectedSwapUrl.getD "")
          (imagePair.proofAnalysis.getD "")
          (imagePair.proofGeneratedAt.getD 0), db, [])
      else
        match getPathFromUrl imagePair.originalUrl,
            getPathFromUrl (imagePair.protectedUrl.getD "") with
        | some originalPath, some protectedPath =>
          let evs0 := [Ev.storeDownload originalPath, Ev.storeDownload protectedPath]
          match ext.download originalPath, ext.download protectedPath with
          | .ok originalB64, .ok protectedB64 =>
            match ext.prove originalB64 protectedB64 with
            | .error _ => (.proveFailed, db, evs0 ++ [.proveCall])
            | .ok proofData =>
              let analysis :=
                analyzeWithGemini ext proofData.originalMeta proofData.protectedMeta
              let p1 := origSwapPath uid id
              let p2 := protSwapPath uid id
              let evs1 := evs0 ++ [.proveCall, .storeUpload p1, .storeUpload p2]
              match uploadImage ext p1, uploadImage ext p2 with
              | .ok u1, .ok u2 =>
                let db2 := updateById db id (fun r =>
                  { r with proofGeneratedAt := some ext.now,
                           proofOriginalSwapUrl := some u1,
                           proofProtectedSwapUrl := some u2,
                           proofAnalysis := some (stringifyAnalysis analysis) })
                (.fresh u1 u2 analysis, db2, evs1)
              | _, _ =>
                (.storageFailed proofData.originalSwap proofData.protectedSwap analysis,
                  db, evs1)
          | _, _ => (.downloadFailed, db, evs0)
        | _, _ => (.pathFailed, db, [])

/-! ## Client-side pollers

Two variants exist in the sources.  `components/image-upload.tsx`
(the current one): 60 attempts, 1000 ms interval; a non-ok or failed
fetch throws into the catch, which surfaces a generic message and
stops; a `failed` status surfaces the backend-failure message; hitting
the attempt ceiling surfaces a timeout message and locally marks the
pair `failed`.  The older variant (`part_014`): 30 attempts, 1000 ms
interval, no ok-check (a non-ok JSON body simply has no terminal
status and is retried), and its `poll` never calls `setError`: both the
ceiling and a transport error end the loop silently. -/

/-- Outcome of one status fetch, indexed by attempt number. -/
inductive FetchRes where
  | transport
  | notOk
  | ok (st : Status)

/-- `maxAttempts` in `components/image-upload.tsx`. -/
def webMaxAttempts : Nat := 60

/-- `maxAttempts` in the older upload component. -/
def mobMaxAttempts : Nat := 30

/-- `setTimeout(poll, 1000)`: both variants reschedule after 1000 ms. -/
def pollIntervalMs : Nat := 1000

def webBackendFailText : String := "Image conversion failed. Please try again."

def webTimeoutText : String :=
  "Conversion is taking longer than expected. Please refresh and check your image history."

def webGenericText : String := "Failed to check conversion status. Please refresh the page."

inductive WebPollEnd where
  | done (st : Status)
  | timeout
  | aborted
deriving DecidableEq, Repr

/-- Error message the web poller leaves in the `error` state. -/
def webErrorMsg : WebPollEnd → Option String
  | .done .failed => some webBackendFailText
  | .done _ => none
  | .timeout => some webTimeoutText
  | .aborted => some webGenericText

/-- Whether the web poller synthesized a local `failed` status
(`setImagePair(prev => ... status: "failed")`, done only at the
attempt ceiling). -/
def webSetsLocalFailed : WebPollEnd → Bool
  | .timeout => true
  | _ => false

/-- The web `poll` loop: `a` is this call's attempt number (after the
increment), `rem` the number of attempts still allowed including this
one (`webMaxAttempts - a + 1` from the entry point). -/
def webPollGo (fetch : Nat → FetchRes) : Nat → Nat → WebPollEnd
  | _, 0 => .timeout
  | a, rem + 1 =>
    match fetch a with
    | .transport => .aborted
    | .notOk => .aborted
    | .ok st =>
      if st == .completed || st == .failed then .done st
      else if rem == 0 then .timeout
      else webPollGo fetch (a + 1) rem

/-- `pollForCompletion` of `components/image-upload.tsx`. -/
def webPollRun (fetch : Nat → FetchRes) : WebPollEnd :=
  webPollGo fetch 1 webMaxAttempts

inductive MobPollEnd where
  | done (st : Status)
  | gaveUp
  | aborted
deriving DecidableEq, Repr

/-- Error message surfaced by the older poller: its `poll` never calls
`setError` (the catch only logs), so no outcome carries a message. -/
def mobErrorMsg : MobPollEnd → Option String
  | _ => none

/-- The older poller never synthesizes a local `failed` status. -/
def mobSetsLocalFailed : MobPollEnd → Bool
  | _ => false

/-- The older `poll` loop (`part_014`): no `response.ok` check, so a
non-ok body just lacks a terminal status and is retried; the ceiling
and transport errors both end the loop with no state change. -/
def mobPollGo (fetch : Nat → FetchRes) : Nat → Nat → MobPollEnd
  | _, 0 => .gaveUp
  | a, rem + 1 =>
    match fetch a with
    | .transport => .aborted
    | .notOk => if rem == 0 then .gaveUp else mobPollGo fetch (a + 1) rem
    | .ok st =>
      if st == .completed || st == .failed then .done st
      else if rem == 0 then .gaveUp
      else mobPollGo fetch (a + 1) rem

/-- `pollForCompletion` of the older upload component. -/
def mobPollRun (fetch : Nat → FetchRes) : MobPollEnd :=
  mobPollGo fetch 1 mobMaxAttempts

/-! ## Pipeline traces

The operations a client can drive against the pipeline (the ones the
data-model invariants quantify over), and the databases reachable by
finite sequences of them starting from an empty table. -/

inductive Op where
  | upload (ext : Ext) (req : UploadReq)
  | convert (ext : Ext) (session : Option String) (body : Option String) (strength : String)
  | proofGen (ext : Ext) (session : Option String) (id : String)
  | deleteOp (session : Option String) (id : String)

/-- Database effect of one operation. -/
def stepOp (db : DB) : Op → DB
  | .upload ext req => (uploadPost ext db req).2.1
  | .convert ext session body strength => (convertPost ext session db body strength).2
  | .proofGen ext session id => (proofPost ext session db id).2.1
  | .deleteOp session id => (imageDelete db session id).2.1

def runOps (ops : List Op) : DB :=
  List.foldl stepOp [] ops

/-- A database is reachable when some operation sequence produces it. -/
def Reachable (db : DB) : Prop :=
  ∃ ops : List Op, runOps ops = db

/-! ## Well-formedness of reachable databases -/

/-- No proof field is set. -/
def ProofNone (r : Row) : Prop :=
  r.proofGeneratedAt = none ∧ r.proofOriginalSwapUrl = none ∧
    r.proofProtectedSwapUrl = none ∧ r.proofAnalysis = none

/-- All four proof fields are set, the string ones nonempty. -/
def ProofFull (r : Row) : Prop :=
  r.proofGeneratedAt.isSome = true ∧
    (∃ u, r.proofOriginalSwapUrl = some u ∧ u ≠ "") ∧
    (∃ v, r.proofProtectedSwapUrl = some v ∧ v ≠ "") ∧
    (∃ w, r.proofAnalysis = some w ∧ w ≠ "")

/-- A nullable string column that is never the empty string. -/
def OptNE (o : Option String) : Prop :=
  ∀ s, o = some s → s ≠ ""

/-- Invariants every row produced by the pipeline satisfies. -/
def RowWF (r : Row) : Prop :=
  (r.status = .completed → ∃ u, r.protectedUrl = some u ∧ u ≠ "") ∧
    OptNE r.protectedUrl ∧
    (ProofNone r ∨ ProofFull r) ∧
    (ProofFull r → ∃ u, r.protectedUrl = some u ∧ u ≠ "")

/-- Database well-formedness: distinct primary keys, all rows
well-formed. -/
def DBWF (db : DB) : Prop :=
  List.Pairwise (fun a b : Row => a.id ≠ b.id) db ∧ ∀ r ∈ db, RowWF r

theorem getPublicUrl_ne_empty (base path : String) : getPublicUrl base path ≠ "" := by
  intro he
  have hlen : (getPublicUrl base path).length = 0 := by rw [he]; rfl
  rw [getPublicUrl] at hlen
  simp only [String.length_append] at hlen
  have h1 : 0 < ("/storage/v1/object/public/" : String).length := by decide
  omega

theorem stringifyAnalysis_ne_empty (a : ProofAnalysis) : stringifyAnalysis a ≠ "" := by
  intro he
  have hlen : (stringifyAnalysis a).length = 0 := by rw [he]; rfl
  rw [stringifyAnalysis] at hlen
  simp only [String.length_append] at hlen
  have h1 : 0 < ("\x7b\x22originalScore\x22:" : String).length := by decide
  omega

/-- `uploadImage` only ever returns URLs of `getPublicUrl` shape, in
particular nonempty ones. -/
theorem uploadImage_ok_ne_empty (ext : Ext) (path url : String)
    (h : uploadImage ext path = .ok url) : url ≠ "" := by
  rw [uploadImage] at h
  cases he : ext.uploadErr path with
  | some e => rw [he] at h; exact absurd h (by simp)
  | none =>
    rw [he] at h
    have : url = getPublicUrl supaBase path := by
      cases h; rfl
    rw [this]
    exact getPublicUrl_ne_empty supaBase path

/-! Preservation of `RowWF` by the row transformers the handlers use. -/

theorem rowWF_setStatus (r : Row) (hw : RowWF r) (s : Status) (hs : s ≠ .completed) :
    RowWF { r with status := s } := by
  obtain ⟨_, h2, h3, h4⟩ := hw
  exact ⟨fun hc => absurd (by simpa using hc) hs, h2, h3, h4⟩

theorem rowWF_complete (r : Row) (hw : RowWF r) (u : String) (hu : u ≠ "") :
    RowWF { r with protectedUrl := some u, status := .completed } := by
  obtain ⟨_, _, h3, _⟩ := hw
  refine ⟨fun _ => ⟨u, rfl, hu⟩, ?_, h3, fun _ => ⟨u, rfl, hu⟩⟩
  intro s hsome
  cases hsome
  exact hu

theorem rowWF_proofUpdate (r : Row) (hw : RowWF r) (t : Nat) (u v w : String)
    (hu : u ≠ "") (hv : v ≠ "") (hw2 : w ≠ "")
    (hp : ∃ p, r.protectedUrl = some p ∧ p ≠ "") :
    RowWF { r with proofGeneratedAt := some t, proofOriginalSwapUrl := some u,
                   proofProtectedSwapUrl := some v, proofAnalysis := some w } := by
  obtain ⟨h1, h2, _, _⟩ := hw
  refine ⟨fun hc => by simpa using hp, h2, Or.inr ?_, fun _ => by simpa using hp⟩
  exact ⟨rfl, ⟨u, rfl, hu⟩, ⟨v, rfl, hv⟩, ⟨w, rfl, hw2⟩⟩

/-! Structural lemmas about `updateById`, `find?`, `filter`. -/

theorem mem_updateById (db : DB) (id : String) (f : Row → Row) (r' : Row)
    (h : r' ∈ updateById db id f) :
    ∃ r ∈ db, ((r.id == id) = true ∧ r' = f r) ∨ ((r.id == id) = false ∧ r' = r) := by
  rw [updateById] at h
  obtain ⟨r, hr, he⟩ := List.mem_map.mp h
  by_cases hc : (r.id == id) = true
  · exact ⟨r, hr, Or.inl ⟨hc, by rw [← he, if_pos hc]⟩⟩
  · exact ⟨r, hr, Or.inr ⟨Bool.not_eq_true _ ▸ hc, by rw [← he, if_neg hc]⟩⟩

theorem pairwise_updateById (db : DB) (id : String) (f : Row → Row)
    (hf : ∀ r, (f r).id = r.id)
    (h : List.Pairwise (fun a b : Row => a.id ≠ b.id) db) :
    List.Pairwise (fun a b : Row => a.id ≠ b.id) (updateById db id f) := by
  rw [updateById, List.pairwise_map]
  refine h.imp_of_mem ?_
  intro a b _ _ hab
  have hia : (if a.id == id then f a else a).id = a.id := by
    split
    · exact hf a
    · rfl
  have hib : (if b.id == id then f b else b).id = b.id := by
    split
    · exact hf b
    · rfl
  rw [hia, hib]
  exact hab

theorem dbwf_updateById (db : DB) (id : String) (f : Row → Row)
    (hf : ∀ r, (f r).id = r.id)
    (hrw : ∀ r ∈ db, (r.id == id) = true → RowWF r → RowWF (f r))
    (h : DBWF db) : DBWF (updateById db id f) := by
  obtain ⟨hpw, hwf⟩ := h
  refine ⟨pairwise_updateById db id f hf hpw, ?_⟩
  intro r' hr'
  obtain ⟨r, hr, hcase⟩ := mem_updateById db id f r' hr'
  rcases hcase with ⟨hc, he⟩ | ⟨_, he⟩
  · exact he ▸ hrw r hr hc (hwf r hr)
  · exact he ▸ hwf r hr

theorem dbwf_filter (db : DB) (p : Row → Bool) (h : DBWF db) :
    DBWF (List.filter p db) := by
  obtain ⟨hpw, hwf⟩ := h
  exact ⟨hpw.sublist (List.filter_sublist db),
    fun r hr => hwf r (List.mem_of_mem_filter hr)⟩

theorem id_unique (db : DB) (hpw : List.Pairwise (fun a b : Row => a.id ≠ b.id) db)
    (r s : Row) (hr : r ∈ db) (hs : s ∈ db) (hid : r.id = s.id) : r = s := by
  induction db with
  | nil => cases hr
  | cons a l ih =>
    rw [List.pairwise_cons] at hpw
    rcases List.mem_cons.mp hr with he | hr' <;> rcases List.mem_cons.mp hs with he2 | hs'
    · rw [he, he2]
    · exact absurd (he ▸ hid) (hpw.1 s hs')
    · exact absurd (he2 ▸ hid).symm (hpw.1 r hr')
    · exact ih hpw.2 hr' hs'

theorem getRowFor_mem (db : DB) (id uid : String) (row : Row)
    (h : getRowFor db id uid = some row) :
    row ∈ db ∧ row.id = id ∧ row.userId = uid := by
  rw [getRowFor] at h
  have hm := List.mem_of_find?_eq_some h
  have hp := List.find?_some h
  simp only [Bool.and_eq_true, beq_iff_eq] at hp
  exact ⟨hm, hp.1, hp.2⟩

theorem getRow_mem (db : DB) (id : String) (row : Row)
    (h : getRow db id = some row) : row ∈ db ∧ row.id = id := by
  rw [getRow] at h
  have hm := List.mem_of_find?_eq_some h
  have hp := List.find?_some h
  simp only [beq_iff_eq] at hp
  exact ⟨hm, hp⟩

theorem strTruthy_iff (o : Option String) :
    strTruthy o = true ↔ ∃ s, o = some s ∧ s ≠ "" := by
  cases o with
  | none => simp [strTruthy]
  | some s => simp [strTruthy]

theorem rowWF_new (id uid url : String) :
    RowWF { id := id, userId := uid, originalUrl := url, protectedUrl := none,
            status := .pending, proofGeneratedAt := none, proofOriginalSwapUrl := none,
            proofProtectedSwapUrl := none, proofAnalysis := none } := by
  refine ⟨?_, ?_, Or.inl ⟨rfl, rfl, rfl, rfl⟩, ?_⟩
  · intro hc; simp at hc
  · intro s hsome; simp at hsome
  · intro hful
    obtain ⟨hg, _⟩ := hful
    simp at hg

theorem uploadPost_wf (ext : Ext) (db : DB) (req : UploadReq) (h : DBWF db) :
    DBWF (uploadPost ext db req).2.1 := by
  obtain ⟨sess, file⟩ := req
  rw [uploadPost]
  cases sess with
  | none => exact h
  | some userId =>
    cases file with
    | none => exact h
    | some f =>
      by_cases ht : (!(ALLOWED_TYPES.contains f.ftype)) = true
      · simp only [ht, if_true]
        exact h
      · simp only [Bool.not_eq_true _ ▸ ht, if_false, Bool.false_eq_true]
        by_cases hsz : f.size > MAX_SIZE
        · simp only [if_pos hsz]
          exact h
        · simp only [if_neg hsz]
          cases hu : uploadImage ext
              ("originals/" ++ userId ++ "/" ++ ext.fileId ++ "." ++ extOf f.name) with
          | error e => exact h
          | ok url =>
            by_cases hdup : (List.any db (fun r => r.id == ext.rowId)) = true
            · simp only [hdup, if_true]
              exact h
            · simp only [Bool.not_eq_true _ ▸ hdup, if_false, Bool.false_eq_true]
              have hfresh : ∀ r ∈ db, r.id ≠ ext.rowId := by
                intro r hr he
                exact hdup (List.any_eq_true.mpr ⟨r, hr, by simp [he]⟩)
              set row : Row :=
                { id := ext.rowId, userId := userId, originalUrl := url,
                  protectedUrl := none, status := .pending,
                  proofGeneratedAt := none, proofOriginalSwapUrl := none,
                  proofProtectedSwapUrl := none, proofAnalysis := none } with hrow
              have h1 : DBWF (List.append db [row]) := by
                rw [List.append_eq]
                obtain ⟨hpw, hwf⟩ := h
                constructor
                · rw [List.pairwise_append]
                  refine ⟨hpw, List.pairwise_singleton _ _, ?_⟩
                  intro a ha b hb
                  have : b = row := by simpa using hb
                  rw [this]
                  exact hfresh a ha
                · intro r hr
                  rcases List.mem_append.mp hr with hr | hr
                  · exact hwf r hr
                  · have : r = row := by simpa using hr
                    rw [this, hrow]
                    exact rowWF_new ..
              by_cases htr : ext.triggerOk
              · simp only [htr, if_true]
                exact h1
              · simp only [Bool.not_eq_true _ ▸ htr, if_false, Bool.false_eq_true]
                refine dbwf_updateById _ _ _ (fun r => rfl) ?_ h1
                intro r _ _ hwr
                exact rowWF_setStatus r hwr .failed (by simp)

theorem convertPost_wf (ext : Ext) (session : Option String) (db : DB)
    (body : Option String) (strength : String) (h : DBWF db) :
    DBWF (convertPost ext session db body strength).2 := by
  rw [convertPost.eq_def]
  cases body with
  | none => exact h
  | some imagePairId =>
    by_cases hb : (imagePairId == "") = true
    · simp only [hb, if_true]
      exact h
    · simp only [Bool.not_eq_true _ ▸ hb, if_false, Bool.false_eq_true]
      cases hrow : getRow db imagePairId with
      | none => exact h
      | some imagePair =>
        dsimp only
        have h1 : DBWF (updateById db imagePairId
            (fun r => { r with status := .processing })) := by
          refine dbwf_updateById _ _ _ (fun r => rfl) ?_ h
          intro r _ _ hwr
          exact rowWF_setStatus r hwr .processing (by simp)
        have hfail : DBWF (updateById
            (updateById db imagePairId (fun r => { r with status := .processing }))
            imagePairId (fun r => { r with status := .failed })) := by
          refine dbwf_updateById _ _ _ (fun r => rfl) ?_ h1
          intro r _ _ hwr
          exact rowWF_setStatus r hwr .failed (by simp)
        cases hp : getPathFromUrl imagePair.originalUrl with
        | none => exact hfail
        | some originalPath =>
          dsimp only
          cases hd : ext.download originalPath with
          | error e => exact hfail
          | ok base64Image =>
            dsimp only
            cases hc : ext.cloak base64Image strength with
            | error e => exact hfail
            | ok cloaked =>
              dsimp only
              cases hu : uploadImage ext
                  (String.mk (replaceFirst "originals/".data "protected/".data
                    originalPath.data)) with
              | error e => exact hfail
              | ok url =>
                refine dbwf_updateById _ _ _ (fun r => rfl) ?_ h1
                intro r _ _ hwr
                exact rowWF_complete r hwr url (uploadImage_ok_ne_empty ext _ url hu)

theorem proofPost_wf (ext : Ext) (session : Option String) (db : DB) (id : String)
    (h : DBWF db) : DBWF (proofPost ext session db id).2.1 := by
  rw [proofPost.eq_def]
  cases session with
  | none => exact h
  | some uid =>
    dsimp only
    cases hrow : getRowFor db id uid with
    | none => exact h
    | some imagePair =>
      dsimp only
      by_cases hgate : (!(strTruthy imagePair.protectedUrl)) = true
      · simp only [hgate, if_true]
        exact h
      · simp only [Bool.not_eq_true _ ▸ hgate, if_false, Bool.false_eq_true]
        have hprot : ∃ p, imagePair.protectedUrl = some p ∧ p ≠ "" := by
          rw [← strTruthy_iff]
          revert hgate
          cases strTruthy imagePair.protectedUrl <;> simp
        by_cases hch : cacheHit imagePair = true
        · simp only [hch, if_true]
          exact h
        · simp only [Bool.not_eq_true _ ▸ hch, if_false, Bool.false_eq_true]
          cases hp1 : getPathFromUrl imagePair.originalUrl with
          | none => exact h
          | some originalPath =>
            cases hp2 : getPathFromUrl (imagePair.protectedUrl.getD "") with
            | none => exact h
            | some protectedPath =>
              dsimp only
              cases hd1 : ext.download originalPath with
              | error e => exact h
              | ok originalB64 =>
                cases hd2 : ext.download protectedPath with
                | error e => exact h
                | ok protectedB64 =>
                  dsimp only
                  cases hpr : ext.prove originalB64 protectedB64 with
                  | error e => exact h
                  | ok proofData =>
                    dsimp only
                    cases hu1 : uploadImage ext (origSwapPath uid id) with
                    | error e => exact h
                    | ok u1 =>
                      cases hu2 : uploadImage ext (protSwapPath uid id) with
                      | error e => exact h
                      | ok u2 =>
                        refine dbwf_updateById _ _ _ (fun r => rfl) ?_ h
                        intro r hr hid hwr
                        have hmem := getRowFor_mem db id uid imagePair hrow
                        have hreq : r = imagePair := by
                          refine id_unique db h.1 r imagePair hr hmem.1 ?_
                          rw [hmem.2.1]
                          exact beq_iff_eq.mp hid
                        refine rowWF_proofUpdate r hwr ext.now u1 u2 _
                          (uploadImage_ok_ne_empty ext _ u1 hu1)
                          (uploadImage_ok_ne_empty ext _ u2 hu2)
                          (stringifyAnalysis_ne_empty _) ?_
                        rw [hreq]
                        exact hprot

theorem imageDelete_wf (db : DB) (session : Option String) (id : String)
    (h : DBWF db) : DBWF (imageDelete db session id).2.1 := by
  rw [imageDelete.eq_def]
  cases session with
  | none => exact h
  | some uid =>
    dsimp only
    cases hrow : getRowFor db id uid with
    | none => exact h
    | some imagePair => exact dbwf_filter db _ h

theorem stepOp_wf (db : DB) (op : Op) (h : DBWF db) : DBWF (stepOp db op) := by
  cases op with
  | upload ext req => exact uploadPost_wf ext db req h
  | convert ext session body strength => exact convertPost_wf ext session db body strength h
  | proofGen ext session id => exact proofPost_wf ext session db id h
  | deleteOp session id => exact imageDelete_wf db session id h

theorem runOps_wf (ops : List Op) : DBWF (runOps ops) := by
  rw [runOps]
  have hgen : ∀ (l : List Op) (db : DB), DBWF db → DBWF (List.foldl stepOp db l) := by
    intro l
    induction l with
    | nil => intro db hdb; exact hdb
    | cons o l ih => intro db hdb; exact ih _ (stepOp_wf db o hdb)
  exact hgen ops [] ⟨List.Pairwise.nil, fun r hr => absurd hr (List.not_mem_nil r)⟩

theorem reachable_wf (db : DB) (h : Reachable db) : DBWF db := by
  obtain ⟨ops, hops⟩ := h
  exact hops ▸ runOps_wf ops

/-! ## Claim theorems -/

/-- C9, counterexample: the claim quantifies over every non-empty
storage path excluding only the marker sequence, but the
`new URL(...).pathname` step inside `getPathFromUrl` rewrites many
such paths before the regex runs: the marker-free nonempty path `a?b`
comes back as `a` (the `?` starts the query string), `a/../b` comes
back as `b` (dot-segment removal), and `a b` comes back as `a%20b`
(percent-encoding), so the round trip fails as stated. -/
theorem c9_counterexample :
    ("a?b" : String) ≠ "" ∧
    afterFirst markerChars ("a?b" : String).data = none ∧
    getPathFromUrl (getPublicUrl supaBase "a?b") = some "a" ∧
    ¬ getPathFromUrl (getPublicUrl supaBase "a?b") = some "a?b" ∧
    getPathFromUrl (getPublicUrl supaBase "a/../b") = some "b" ∧
    getPathFromUrl (getPublicUrl supaBase "a b") = some "a%20b" := by
  refine ⟨by decide, by decide, by decide, by decide, by decide, by decide⟩

/-- C9 (amended): `getPathFromUrl` is total — it returns a path or
`null` for every input string and never raises — and the round trip
holds for every non-empty storage path that the URL parser's pathname
serialization leaves unchanged: a path of plain URL-path characters
(printable ASCII outside the WHATWG path percent-encode set, and not
a backslash) none of whose slash-separated segments is a dot segment
(`.`, `..` or their `%2e` spellings), and which does not contain the
literal marker sequence — applying `getPathFromUrl` to the public URL
generated for it (over a well-formed https origin) returns the
original path unchanged. -/
theorem c9_urlToPath_roundTrip :
    (∀ url : String, getPathFromUrl url = none ∨ ∃ p, getPathFromUrl url = some p) ∧
    (∀ h path : String,
      (∀ c ∈ h.data, pathPlainChar c = true ∧ c ≠ ':' ∧ c ≠ '/' ∧ c ≠ '\\') →
      path ≠ "" →
      afterFirst markerChars path.data = none →
      (∀ c ∈ path.data, pathPlainChar c = true ∧ c ≠ '\\') →
      (∀ seg ∈ splitSlash path.data,
        isSingleDot seg = false ∧ isDoubleDot seg = false) →
      getPathFromUrl (getPublicUrl ("https://" ++ h) path) = some path) := by
  constructor
  · intro url
    cases hg : getPathFromUrl url with
    | none => exact Or.inl rfl
    | some p => exact Or.inr ⟨p, rfl⟩
  · intro h path hh hp _ hplain hdots
    exact getPathFromUrl_getPublicUrl h path hh hp hplain hdots

/-- Witness for C9 (amended) at the host `example.supabase.co` and the
path `originals/u/f.png`. -/
theorem c9_witness :
    (∀ c ∈ ("example.supabase.co" : String).data,
      pathPlainChar c = true ∧ c ≠ ':' ∧ c ≠ '/' ∧ c ≠ '\\') ∧
    ("originals/u/f.png" : String) ≠ "" ∧
    afterFirst markerChars ("originals/u/f.png" : String).data = none ∧
    (∀ c ∈ ("originals/u/f.png" : String).data, pathPlainChar c = true ∧ c ≠ '\\') ∧
    (∀ seg ∈ splitSlash ("originals/u/f.png" : String).data,
      isSingleDot seg = false ∧ isDoubleDot seg = false) ∧
    getPathFromUrl (getPublicUrl ("https://" ++ "example.supabase.co") "originals/u/f.png")
      = some "originals/u/f.png" :=
  ⟨by decide, by decide, by decide, by decide, by decide,
    c9_urlToPath_roundTrip.2 "example.supabase.co" "originals/u/f.png"
      (by decide) (by decide) (by decide) (by decide) (by decide)⟩

/-- Reading back the updated id after `updateById` sees the transformed
row (for id-preserving transformers). -/
theorem getRow_updateById (db : DB) (id : String) (f : Row → Row)
    (hf : ∀ r, (f r).id = r.id) :
    getRow (updateById db id f) id = (getRow db id).map f := by
  rw [getRow, updateById, getRow]
  induction db with
  | nil => rfl
  | cons a l ih =>
    rw [List.map_cons]
    by_cases ha : (a.id == id) = true
    · rw [if_pos ha]
      have hfa : ((f a).id == id) = true := by rw [hf a]; exact ha
      simp only [List.find?_cons, hfa, ha]
      rfl
    · have ha2 : (a.id == id) = false := by
        revert ha
        cases a.id == id <;> simp
      rw [if_neg ha]
      simp only [List.find?_cons, ha2]
      exact ih

/-- Default oracle for witnesses: every external call fails, no
Gemini key, fixed generated identifiers. -/
def extW : Ext where
  download := fun _ => .error "down"
  uploadErr := fun _ => some "up"
  cloak := fun _ _ => .error "cloak"
  prove := fun _ _ => .error ()
  geminiKey := false
  gemini := none
  fileId := "f1"
  rowId := "r1"
  triggerOk := true
  now := 0

/-- A row owned by `userB`, as stored after that user's upload. -/
def rowB : Row where
  id := "r1"
  userId := "userB"
  originalUrl := getPublicUrl supaBase "originals/userB/f.png"
  protectedUrl := none
  status := .pending
  proofGeneratedAt := none
  proofOriginalSwapUrl := none
  proofProtectedSwapUrl := none
  proofAnalysis := none

/-- C1, counterexample: the claim includes triggering conversion among
the tenant-isolated mutations, but the convert route reads no session
and selects the row by id alone, so a caller distinct from the owner
(here `userA` against `userB`'s row) still mutates the row — the
conversion run below flips the row to `failed`. -/
theorem c1_counterexample :
    ("userA" : String) ≠ "userB" ∧ rowB.userId = "userB" ∧ rowB.status = .pending ∧
    getRow (convertPost extW (some "userA") [rowB] (some "r1") "medium").2 "r1"
      = some { rowB with status := Status.failed } := by
  refine ⟨by decide, rfl, rfl, by decide⟩

/-- C1 (amended): tenant isolation holds at the read, delete and proof
operations — for a caller owning no row with the requested id, `GET`
returns not-found, `DELETE` returns not-found leaving the database and
storage untouched, and the proof endpoint returns not-found with no
mutation and no external call — but it does not hold for triggering
conversion: `POST /api/images/convert` consults no caller identity and
mutates the row matching the id for any caller. -/
theorem c1_tenant_isolation (db : DB) (id uA : String) (ext : Ext)
    (hforeign : ∀ r ∈ db, r.id = id → r.userId ≠ uA) :
    imageGet db (some uA) id = .notFound ∧
    imageDelete db (some uA) id = (.notFound, db, []) ∧
    proofPost ext (some uA) db id = (.notFound, db, []) := by
  have hfind : getRowFor db id uA = none := by
    rw [getRowFor]
    refine List.find?_eq_none.mpr ?_
    intro r hr
    simp only [Bool.and_eq_true, beq_iff_eq, not_and]
    intro hid
    exact fun hu => hforeign r hr hid hu
  refine ⟨?_, ?_, ?_⟩
  · rw [imageGet]
    rw [hfind]
  · rw [imageDelete.eq_def]
    dsimp only
    rw [hfind]
  · rw [proofPost.eq_def]
    dsimp only
    rw [hfind]

/-- Witness for C1 (amended): `userA` against a database holding only
`userB`'s row. -/
theorem c1_witness :
    (∀ r ∈ ([rowB] : DB), r.id = "r1" → r.userId ≠ "userA") ∧
    (imageGet [rowB] (some "userA") "r1" = .notFound ∧
      imageDelete [rowB] (some "userA") "r1" = (.notFound, [rowB], []) ∧
      proofPost extW (some "userA") [rowB] "r1" = (.notFound, [rowB], [])) :=
  ⟨by decide, c1_tenant_isolation [rowB] "r1" "userA" extW (by decide)⟩

/-- C4: upload validation precedes all persistence with an inclusive
size boundary — a disallowed content type or an oversize file is
rejected with a 400 before any storage write and with the database
unchanged (no row, not even an error-state one); a type-allowed file
of size at most `MAX_SIZE` passes both checks and reaches the storage
write; size exactly `MAX_SIZE + 1` is rejected as too large. -/
theorem c4_upload_validation (ext : Ext) (db : DB) (req : UploadReq)
    (uid : String) (f : UFile)
    (hs : req.session = some uid) (hf : req.file = some f) :
    MAX_SIZE = 10 * 1024 * 1024 ∧
    ((ALLOWED_TYPES.contains f.ftype = false ∨ f.size > MAX_SIZE) →
      ∃ resp, uploadPost ext db req = (resp, db, []) ∧ UploadResp.statusCode resp = 400) ∧
    (ALLOWED_TYPES.contains f.ftype = true → f.size ≤ MAX_SIZE →
      ((uploadPost ext db req).1 ≠ .badType ∧ (uploadPost ext db req).1 ≠ .tooLarge ∧
        ∃ rest, (uploadPost ext db req).2.2
          = Ev.storeUpload ("originals/" ++ uid ++ "/" ++ ext.fileId ++ "." ++ extOf f.name)
            :: rest)) ∧
    (ALLOWED_TYPES.contains f.ftype = true → f.size = MAX_SIZE + 1 →
      uploadPost ext db req = (.tooLarge, db, [])) := by
  obtain ⟨sess, file⟩ := req
  simp only at hs hf
  subst hs
  subst hf
  refine ⟨rfl, ?_, ?_, ?_⟩
  · intro hbad
    by_cases ht : ALLOWED_TYPES.contains f.ftype = true
    · have hsz : f.size > MAX_SIZE := by
        rcases hbad with hb | hsz
        · rw [ht] at hb
          exact absurd hb (by simp)
        · exact hsz
      refine ⟨.tooLarge, ?_, rfl⟩
      rw [uploadPost]
      dsimp only
      rw [ht]
      simp [hsz]
    · have ht2 : ALLOWED_TYPES.contains f.ftype = false := by
        revert ht
        cases ALLOWED_TYPES.contains f.ftype <;> simp
      refine ⟨.badType, ?_, rfl⟩
      rw [uploadPost]
      dsimp only
      rw [ht2]
      rfl
  · intro ht hsz
    rw [uploadPost]
    dsimp only
    rw [ht]
    simp only [Bool.not_true, Bool.false_eq_true, if_false]
    rw [if_neg (by omega)]
    cases hu : uploadImage ext ("originals/" ++ uid ++ "/" ++ ext.fileId ++ "." ++ extOf f.name) with
    | error e => exact ⟨by simp, by simp, [], rfl⟩
    | ok url =>
      dsimp only
      by_cases hdup : (List.any db (fun r => r.id == ext.rowId)) = true
      · rw [if_pos hdup]
        exact ⟨by simp, by simp, [], rfl⟩
      · rw [if_neg hdup]
        exact ⟨by simp, by simp, [.convertTrigger], rfl⟩
  · intro ht hsz
    rw [uploadPost]
    dsimp only
    rw [ht]
    simp only [Bool.not_true, Bool.false_eq_true, if_false]
    rw [if_pos (by omega)]

/-- Witness for C4 at a 10 MB png (passes) and a 10 MB + 1 byte png
(rejected with no persistence). -/
theorem c4_witness :
    ((uploadPost extW [] ⟨some "u1", some ⟨"image/png", MAX_SIZE, "photo.png"⟩⟩).1
        ≠ .badType ∧
      (uploadPost extW [] ⟨some "u1", some ⟨"image/png", MAX_SIZE, "photo.png"⟩⟩).1
        ≠ .tooLarge ∧
      ∃ rest, (uploadPost extW [] ⟨some "u1", some ⟨"image/png", MAX_SIZE, "photo.png"⟩⟩).2.2
        = Ev.storeUpload ("originals/" ++ "u1" ++ "/" ++ extW.fileId ++ "." ++
            extOf (UFile.name ⟨"image/png", MAX_SIZE, "photo.png"⟩)) :: rest) ∧
    uploadPost extW [] ⟨some "u1", some ⟨"image/png", MAX_SIZE + 1, "photo.png"⟩⟩
      = (.tooLarge, [], []) :=
  ⟨(c4_upload_validation extW [] _ "u1" _ rfl rfl).2.2.1 (by decide) (le_refl _),
    (c4_upload_validation extW [] _ "u1" _ rfl rfl).2.2.2 (by decide) rfl⟩

/-- All four conversion sub-steps succeed for this oracle and row:
the original URL parses to a storage path, the original downloads, the
cloak backend answers 2xx, and the protected artifact uploads. -/
def ConvertSteps (ext : Ext) (strength : String) (row : Row) : Prop :=
  ∃ p, getPathFromUrl row.originalUrl = some p ∧
    ∃ b, ext.download p = .ok b ∧
      ∃ c, ext.cloak b strength = .ok c ∧
        ∃ u, uploadImage ext
          (String.mk (replaceFirst "originals/".data "protected/".data p.data)) = .ok u

/-- C3: the conversion step is all-or-nothing — for every conversion
run on an existing row, either some sub-step fails and then the
response is a 500 error, the row ends at `status=failed` and
`protectedUrl` is exactly what it was before; or every sub-step
succeeds and then `protectedUrl` and `status=completed` are written
together (the row ends with both), with a 200 response carrying them.
The 200 outcome happens exactly when every sub-step succeeds. -/
theorem c3_convert_all_or_nothing (ext : Ext) (session : Option String) (db : DB)
    (id strength : String) (row : Row)
    (hne : id ≠ "") (hrow : getRow db id = some row) :
    ∃ r2, getRow (convertPost ext session db (some id) strength).2 id = some r2 ∧
      (((convertPost ext session db (some id) strength).1.statusCode = 500 ∧
          r2.status = .failed ∧ r2.protectedUrl = row.protectedUrl) ∨
        ((convertPost ext session db (some id) strength).1.statusCode = 200 ∧
          r2.status = .completed ∧
          ∃ u, r2.protectedUrl = some u ∧
            (convertPost ext session db (some id) strength).1
              = .ok id row.originalUrl u .completed)) ∧
      ((convertPost ext session db (some id) strength).1.statusCode = 200 ↔
        ConvertSteps ext strength row) := by
  have hne2 : (id == "") = false := by
    simp [hne]
  rw [convertPost.eq_def]
  dsimp only
  rw [hne2]
  simp only [Bool.false_eq_true, if_false]
  rw [hrow]
  dsimp only
  cases hp : getPathFromUrl row.originalUrl with
  | none =>
    dsimp only [ConvertResp.statusCode]
    refine ⟨{ row with status := .failed }, ?_, Or.inl ⟨rfl, rfl, rfl⟩, ?_⟩
    · rw [getRow_updateById _ _ (fun r => { r with status := Status.failed }) (fun r => rfl),
        getRow_updateById _ _ (fun r => { r with status := Status.processing }) (fun r => rfl),
        hrow]
      rfl
    · constructor
      · intro habs
        exact absurd habs (by decide)
      · rintro ⟨p, hp2, _⟩
        rw [hp] at hp2
        exact absurd hp2 (by simp)
  | some originalPath =>
    dsimp only
    cases hd : ext.download originalPath with
    | error e =>
      dsimp only [ConvertResp.statusCode]
      refine ⟨{ row with status := .failed }, ?_, Or.inl ⟨rfl, rfl, rfl⟩, ?_⟩
      · rw [getRow_updateById _ _ (fun r => { r with status := Status.failed }) (fun r => rfl),
          getRow_updateById _ _ (fun r => { r with status := Status.processing }) (fun r => rfl),
          hrow]
        rfl
      · constructor
        · intro habs
          exact absurd habs (by decide)
        · rintro ⟨p, hp2, b, hb, _⟩
          rw [hp] at hp2
          cases hp2
          rw [hd] at hb
          exact absurd hb (by simp)
    | ok base64Image =>
      dsimp only
      cases hc : ext.cloak base64Image strength with
      | error e =>
        dsimp only [ConvertResp.statusCode]
        refine ⟨{ row with status := .failed }, ?_, Or.inl ⟨rfl, rfl, rfl⟩, ?_⟩
        · rw [getRow_updateById _ _ (fun r => { r with status := Status.failed }) (fun r => rfl),
            getRow_updateById _ _ (fun r => { r with status := Status.processing }) (fun r => rfl),
            hrow]
          rfl
        · constructor
          · intro habs
            exact absurd habs (by decide)
          · rintro ⟨p, hp2, b, hb, c, hcc, _⟩
            rw [hp] at hp2
            cases hp2
            rw [hd] at hb
            cases hb
            rw [hc] at hcc
            exact absurd hcc (by simp)
      | ok cloaked =>
        dsimp only
        cases hu : uploadImage ext
            (String.mk (replaceFirst "originals/".data "protected/".data
              originalPath.data)) with
        | error e =>
          dsimp only [ConvertResp.statusCode]
          refine ⟨{ row with status := .failed }, ?_, Or.inl ⟨rfl, rfl, rfl⟩, ?_⟩
          · rw [getRow_updateById _ _ (fun r => { r with status := Status.failed }) (fun r => rfl),
              getRow_updateById _ _ (fun r => { r with status := Status.processing }) (fun r => rfl),
              hrow]
            rfl
          · constructor
            · intro habs
              exact absurd habs (by decide)
            · rintro ⟨p, hp2, b, hb, c, hcc, u, hu2⟩
              rw [hp] at hp2
              cases hp2
              rw [hd] at hb
              cases hb
              rw [hc] at hcc
              cases hcc
              rw [hu] at hu2
              exact absurd hu2 (by simp)
        | ok url =>
          dsimp only [ConvertResp.statusCode]
          refine ⟨{ row with protectedUrl := some url, status := .completed }, ?_,
            Or.inr ⟨rfl, rfl, url, rfl, rfl⟩, ?_⟩
          · rw [getRow_updateById _ _
                (fun r => { r with protectedUrl := some url, status := Status.completed })
                (fun r => rfl),
              getRow_updateById _ _ (fun r => { r with status := Status.processing })
                (fun r => rfl),
              hrow]
            rfl
          · constructor
            · intro _
              exact ⟨originalPath, hp, base64Image, hd, cloaked, hc, url, hu⟩
            · intro _
              rfl

/-- A pending row owned by `u1`, as stored right after upload. -/
def rowP : Row where
  id := "r1"
  userId := "u1"
  originalUrl := getPublicUrl supaBase "originals/u1/f1.png"
  protectedUrl := none
  status := .pending
  proofGeneratedAt := none
  proofOriginalSwapUrl := none
  proofProtectedSwapUrl := none
  proofAnalysis := none

/-- Oracle under which every external call succeeds. -/
def extOk : Ext where
  download := fun _ => .ok "b64"
  uploadErr := fun _ => none
  cloak := fun _ _ => .ok "c64"
  prove := fun _ _ => .ok
    { originalSwap := "os64", protectedSwap := "ps64",
      originalMeta := { status := "success", reason := "", confidence := 90, message := "" },
      protectedMeta := { status := "failed", reason := "", confidence := 10, message := "" } }
  geminiKey := false
  gemini := none
  fileId := "f1"
  rowId := "r1"
  triggerOk := true
  now := 7

/-- Witness for C3: a successful conversion run on `rowP`. -/
theorem c3_witness :
    ("r1" : String) ≠ "" ∧ getRow [rowP] "r1" = some rowP ∧
    ∃ r2, getRow (convertPost extOk none [rowP] (some "r1") "medium").2 "r1" = some r2 ∧
      (((convertPost extOk none [rowP] (some "r1") "medium").1.statusCode = 500 ∧
          r2.status = .failed ∧ r2.protectedUrl = rowP.protectedUrl) ∨
        ((convertPost extOk none [rowP] (some "r1") "medium").1.statusCode = 200 ∧
          r2.status = .completed ∧
          ∃ u, r2.protectedUrl = some u ∧
            (convertPost extOk none [rowP] (some "r1") "medium").1
              = .ok "r1" rowP.originalUrl u .completed)) ∧
      (((convertPost extOk none [rowP] (some "r1") "medium").1.statusCode = 200) ↔
        ConvertSteps extOk "medium" rowP) :=
  ⟨by decide, by decide,
    c3_convert_all_or_nothing extOk none [rowP] "r1" "medium" rowP (by decide) (by decide)⟩

/-- Trace falsifying the completed ⇔ protectedUrl iff: upload, one
successful conversion, then a second conversion whose download fails. -/
def c2ops : List Op :=
  [.upload extOk ⟨some "u1", some ⟨"image/png", 100, "f1.png"⟩⟩,
   .convert extOk none (some "r1") "medium",
   .convert extW none (some "r1") "medium"]

/-- The row `c2ops` produces: failed, yet with the stale protected
URL still set. -/
def c2row : Row where
  id := "r1"
  userId := "u1"
  originalUrl := getPublicUrl supaBase "originals/u1/f1.png"
  protectedUrl := some (getPublicUrl supaBase "protected/u1/f1.png")
  status := .failed
  proofGeneratedAt := none
  proofOriginalSwapUrl := none
  proofProtectedSwapUrl := none
  proofAnalysis := none

/-- C2, counterexample: a reachable row (upload, successful convert,
re-convert whose download fails) has `status = failed` with a non-null
`protectedUrl` — the convert failure path writes only `status` and
leaves the stale URL in place, so the claimed iff fails in the
only-if direction. -/
theorem c2_counterexample :
    Reachable (runOps c2ops) ∧
    getRow (runOps c2ops) "r1" = some c2row ∧
    c2row.status ≠ .completed ∧ c2row.protectedUrl ≠ none :=
  ⟨⟨c2ops, rfl⟩, by decide, by decide, by decide⟩

/-- C2 (amended): the forward direction is an invariant — no operation
ever sets `status = completed` without simultaneously setting
`protectedUrl`, so in every reachable database every completed row has
a non-null (and nonempty) `protectedUrl`.  The converse fails:
re-running conversion on a completed row presents the stale
`protectedUrl` while `status` is `processing` or `failed` (see the
counterexample). -/
theorem c2_completed_implies_protected (db : DB) (r : Row)
    (hdb : Reachable db) (hr : r ∈ db) (hc : r.status = .completed) :
    ∃ u, r.protectedUrl = some u ∧ u ≠ "" :=
  ((reachable_wf db hdb).2 r hr).1 hc

/-- Trace reaching a completed row: upload then successful convert. -/
def c2okOps : List Op :=
  [.upload extOk ⟨some "u1", some ⟨"image/png", 100, "f1.png"⟩⟩,
   .convert extOk none (some "r1") "medium"]

/-- The completed row `c2okOps` produces. -/
def c2okRow : Row where
  id := "r1"
  userId := "u1"
  originalUrl := getPublicUrl supaBase "originals/u1/f1.png"
  protectedUrl := some (getPublicUrl supaBase "protected/u1/f1.png")
  status := .completed
  proofGeneratedAt := none
  proofOriginalSwapUrl := none
  proofProtectedSwapUrl := none
  proofAnalysis := none

/-- Witness for C2 (amended) on the completed row of `c2okOps`. -/
theorem c2_witness :
    Reachable (runOps c2okOps) ∧ c2okRow ∈ runOps c2okOps ∧ c2okRow.status = .completed ∧
    ∃ u, c2okRow.protectedUrl = some u ∧ u ≠ "" :=
  ⟨⟨c2okOps, rfl⟩, by decide, rfl,
    c2_completed_implies_protected (runOps c2okOps) c2okRow ⟨c2okOps, rfl⟩ (by decide) rfl⟩

/-- C6: a proof cache hit is free and side-effect-free — for every
reachable database and every owned row whose four proof fields are all
non-null, the proof route returns `cached:true` with the stored values
immediately: the database is unchanged and no external effect (prove
call, storage download or upload) happens, for every oracle. -/
theorem c6_proof_cache_hit (ext : Ext) (db : DB) (uid id : String) (row : Row)
    (hdb : Reachable db)
    (hrow : getRowFor db id uid = some row)
    (hg : row.proofGeneratedAt.isSome = true)
    (h1 : row.proofOriginalSwapUrl.isSome = true)
    (h2 : row.proofProtectedSwapUrl.isSome = true)
    (h3 : row.proofAnalysis.isSome = true) :
    proofPost ext (some uid) db id =
      (.cachedHit (row.proofOriginalSwapUrl.getD "") (row.proofProtectedSwapUrl.getD "")
        (row.proofAnalysis.getD "") (row.proofGeneratedAt.getD 0), db, []) := by
  have hwf := (reachable_wf db hdb).2 row (getRowFor_mem db id uid row hrow).1
  obtain ⟨_, _, hpn, hpf⟩ := hwf
  have hfull : ProofFull row := by
    rcases hpn with hn | hf
    · exfalso
      obtain ⟨hgn, _⟩ := hn
      rw [hgn] at hg
      exact absurd hg (by simp)
    · exact hf
  have hptr : strTruthy row.protectedUrl = true := (strTruthy_iff _).mpr (hpf hfull)
  have hch : cacheHit row = true := by
    obtain ⟨hg2, ⟨u, hu, hu2⟩, ⟨v, hv, hv2⟩, ⟨w, hw, hw2⟩⟩ := hfull
    rw [cacheHit, hu, hv, hw]
    simp [strTruthy, hg2, hu2, hv2, hw2]
  rw [proofPost.eq_def]
  dsimp only
  rw [hrow]
  dsimp only
  rw [hptr, hch]
  simp

/-- Trace producing a row with all four proof fields cached: upload,
successful convert, successful proof generation. -/
def c6ops : List Op :=
  [.upload extOk ⟨some "u1", some ⟨"image/png", 100, "f1.png"⟩⟩,
   .convert extOk none (some "r1") "medium",
   .proofGen extOk (some "u1") "r1"]

/-- The fully cached row `c6ops` produces. -/
def c6row : Row where
  id := "r1"
  userId := "u1"
  originalUrl := getPublicUrl supaBase "originals/u1/f1.png"
  protectedUrl := some (getPublicUrl supaBase "protected/u1/f1.png")
  status := .completed
  proofGeneratedAt := some 7
  proofOriginalSwapUrl := some (getPublicUrl supaBase (origSwapPath "u1" "r1"))
  proofProtectedSwapUrl := some (getPublicUrl supaBase (protSwapPath "u1" "r1"))
  proofAnalysis := some (stringifyAnalysis (fallbackNoKey
    { status := "success", reason := "", confidence := 90, message := "" }
    { status := "failed", reason := "", confidence := 10, message := "" }))

set_option maxRecDepth 40000 in
/-- Witness for C6: after `c6ops`, a repeat proof request under the
all-failing oracle `extW` still answers from cache with no effect. -/
theorem c6_witness :
    Reachable (runOps c6ops) ∧
    getRowFor (runOps c6ops) "r1" "u1" = some c6row ∧
    c6row.proofGeneratedAt.isSome = true ∧
    c6row.proofOriginalSwapUrl.isSome = true ∧
    c6row.proofProtectedSwapUrl.isSome = true ∧
    c6row.proofAnalysis.isSome = true ∧
    proofPost extW (some "u1") (runOps c6ops) "r1" =
      (.cachedHit (c6row.proofOriginalSwapUrl.getD "") (c6row.proofProtectedSwapUrl.getD "")
        (c6row.proofAnalysis.getD "") (c6row.proofGeneratedAt.getD 0), runOps c6ops, []) :=
  ⟨⟨c6ops, rfl⟩, by decide, rfl, rfl, rfl, rfl,
    c6_proof_cache_hit extW (runOps c6ops) "u1" "r1" c6row ⟨c6ops, rfl⟩ (by decide)
      rfl rfl rfl rfl⟩

/-- In every run of the proof route, every row of the resulting
database either keeps its four proof fields exactly as they were, or
has all four set: the route writes them only together, in one update. -/
theorem proofPost_proof_fields (ext : Ext) (session : Option String) (db : DB)
    (id : String) :
    ∀ r2 ∈ (proofPost ext session db id).2.1,
      (∃ r1 ∈ db, r1.id = r2.id ∧
        r2.proofGeneratedAt = r1.proofGeneratedAt ∧
        r2.proofOriginalSwapUrl = r1.proofOriginalSwapUrl ∧
        r2.proofProtectedSwapUrl = r1.proofProtectedSwapUrl ∧
        r2.proofAnalysis = r1.proofAnalysis) ∨
      (r2.proofGeneratedAt.isSome = true ∧ r2.proofOriginalSwapUrl.isSome = true ∧
        r2.proofProtectedSwapUrl.isSome = true ∧ r2.proofAnalysis.isSome = true) := by
  have hkeep : ∀ r2 : Row, r2 ∈ db →
      (∃ r1 ∈ db, r1.id = r2.id ∧
        r2.proofGeneratedAt = r1.proofGeneratedAt ∧
        r2.proofOriginalSwapUrl = r1.proofOriginalSwapUrl ∧
        r2.proofProtectedSwapUrl = r1.proofProtectedSwapUrl ∧
        r2.proofAnalysis = r1.proofAnalysis) ∨
      (r2.proofGeneratedAt.isSome = true ∧ r2.proofOriginalSwapUrl.isSome = true ∧
        r2.proofProtectedSwapUrl.isSome = true ∧ r2.proofAnalysis.isSome = true) :=
    fun r2 hr2 => Or.inl ⟨r2, hr2, rfl, rfl, rfl, rfl, rfl⟩
  rw [proofPost.eq_def]
  cases session with
  | none => exact hkeep
  | some uid =>
    dsimp only
    cases hrow : getRowFor db id uid with
    | none => exact hkeep
    | some imagePair =>
      dsimp only
      by_cases hgate : (!(strTruthy imagePair.protectedUrl)) = true
      · simp only [hgate, if_true]
        exact hkeep
      · simp only [Bool.not_eq_true _ ▸ hgate, if_false, Bool.false_eq_true]
        by_cases hch : cacheHit imagePair = true
        · simp only [hch, if_true]
          exact hkeep
        · simp only [Bool.not_eq_true _ ▸ hch, if_false, Bool.false_eq_true]
          cases hp1 : getPathFromUrl imagePair.originalUrl with
          | none => exact hkeep
          | some originalPath =>
            cases hp2 : getPathFromUrl (imagePair.protectedUrl.getD "") with
            | none => exact hkeep
            | some protectedPath =>
              dsimp only
              cases hd1 : ext.download originalPath with
              | error e => exact hkeep
              | ok originalB64 =>
                cases hd2 : ext.download protectedPath with
                | error e => exact hkeep
                | ok protectedB64 =>
                  dsimp only
                  cases hpr : ext.prove originalB64 protectedB64 with
                  | error e => exact hkeep
                  | ok proofData =>
                    dsimp only
                    cases hu1 : uploadImage ext (origSwapPath uid id) with
                    | error e => exact hkeep
                    | ok u1 =>
                      cases hu2 : uploadImage ext (protSwapPath uid id) with
                      | error e => exact hkeep
                      | ok u2 =>
                        dsimp only
                        intro r2 hr2
                        obtain ⟨r1, hr1, hcase⟩ := mem_updateById _ _ _ r2 hr2
                        rcases hcase with ⟨_, he⟩ | ⟨_, he⟩
                        · rw [he]
                          exact Or.inr ⟨rfl, rfl, rfl, rfl⟩
                        · rw [he]
                          exact Or.inl ⟨r1, hr1, rfl, rfl, rfl, rfl, rfl⟩

/-- C7: proof persistence is all-or-nothing and the computation is
never discarded — when the prove call succeeds but uploading either
swap image fails, the response still carries both base64 swap images
and the analysis, is marked `storageFailed:true` and `cached:false`,
and the database is unchanged (no proof field is written, so a later
request recomputes); and in every run of the route the four proof
fields are only ever written all together, never one to three of
them. -/
theorem c7_proof_storage_failed (ext : Ext) (db : DB) (uid id : String) (row : Row)
    (pu po pp bo bp : String) (pd : ProveData)
    (hrow : getRowFor db id uid = some row)
    (hpu : row.protectedUrl = some pu) (hpune : pu ≠ "")
    (hmiss : cacheHit row = false)
    (hpo : getPathFromUrl row.originalUrl = some po)
    (hpp : getPathFromUrl pu = some pp)
    (hbo : ext.download po = .ok bo)
    (hbp : ext.download pp = .ok bp)
    (hpd : ext.prove bo bp = .ok pd)
    (hupfail : ext.uploadErr (origSwapPath uid id) ≠ none ∨
      ext.uploadErr (protSwapPath uid id) ≠ none) :
    ((proofPost ext (some uid) db id).1
        = .storageFailed pd.originalSwap pd.protectedSwap
            (analyzeWithGemini ext pd.originalMeta pd.protectedMeta) ∧
      (proofPost ext (some uid) db id).1.cachedFlag = false ∧
      (proofPost ext (some uid) db id).1.storageFailedFlag = true ∧
      (proofPost ext (some uid) db id).2.1 = db) ∧
    (∀ ext2 s2 db2 id2, ∀ r2 ∈ (proofPost ext2 s2 db2 id2).2.1,
      (∃ r1 ∈ db2, r1.id = r2.id ∧
        r2.proofGeneratedAt = r1.proofGeneratedAt ∧
        r2.proofOriginalSwapUrl = r1.proofOriginalSwapUrl ∧
        r2.proofProtectedSwapUrl = r1.proofProtectedSwapUrl ∧
        r2.proofAnalysis = r1.proofAnalysis) ∨
      (r2.proofGeneratedAt.isSome = true ∧ r2.proofOriginalSwapUrl.isSome = true ∧
        r2.proofProtectedSwapUrl.isSome = true ∧ r2.proofAnalysis.isSome = true)) := by
  refine ⟨?_, fun ext2 s2 db2 id2 => proofPost_proof_fields ext2 s2 db2 id2⟩
  have hptr : strTruthy row.protectedUrl = true := (strTruthy_iff _).mpr ⟨pu, hpu, hpune⟩
  rw [proofPost.eq_def]
  dsimp only
  rw [hrow]
  dsimp only
  rw [hptr, hmiss]
  simp only [Bool.not_true, Bool.false_eq_true, if_false]
  rw [hpu]
  dsimp only [Option.getD]
  rw [hpo, hpp]
  dsimp only
  rw [hbo, hbp]
  dsimp only
  rw [hpd]
  dsimp only
  cases hq1 : uploadImage ext (origSwapPath uid id) with
  | error e1 =>
    dsimp only
    exact ⟨rfl, rfl, rfl, rfl⟩
  | ok u1 =>
    cases hq2 : uploadImage ext (protSwapPath uid id) with
    | error e2 =>
      dsimp only
      exact ⟨rfl, rfl, rfl, rfl⟩
    | ok u2 =>
      exfalso
      rcases hupfail with he | he
      · rw [uploadImage] at hq1
        cases hx : ext.uploadErr (origSwapPath uid id) with
        | none => exact he hx
        | some e =>
          rw [hx] at hq1
          exact absurd hq1 (by simp)
      · rw [uploadImage] at hq2
        cases hx : ext.uploadErr (protSwapPath uid id) with
        | none => exact he hx
        | some e =>
          rw [hx] at hq2
          exact absurd hq2 (by simp)

/-- Oracle whose prove call succeeds but whose storage uploads all
fail. -/
def extSF : Ext :=
  { extOk with uploadErr := fun _ => some "boom" }

/-- Witness for C7 on the completed row of `c2okOps`, with both swap
uploads failing. -/
theorem c7_witness :
    getRowFor [c2okRow] "r1" "u1" = some c2okRow ∧
    c2okRow.protectedUrl = some (getPublicUrl supaBase "protected/u1/f1.png") ∧
    cacheHit c2okRow = false ∧
    extSF.uploadErr (origSwapPath "u1" "r1") ≠ none ∧
    ((proofPost extSF (some "u1") [c2okRow] "r1").1
        = .storageFailed "os64" "ps64"
            (analyzeWithGemini extSF
              { status := "success", reason := "", confidence := 90, message := "" }
              { status := "failed", reason := "", confidence := 10, message := "" }) ∧
      (proofPost extSF (some "u1") [c2okRow] "r1").1.cachedFlag = false ∧
      (proofPost extSF (some "u1") [c2okRow] "r1").1.storageFailedFlag = true ∧
      (proofPost extSF (some "u1") [c2okRow] "r1").2.1 = [c2okRow]) :=
  ⟨by decide, by decide, by decide, by decide,
    (c7_proof_storage_failed extSF [c2okRow] "u1" "r1" c2okRow
      (getPublicUrl supaBase "protected/u1/f1.png") "originals/u1/f1.png"
      "protected/u1/f1.png" "b64" "b64"
      { originalSwap := "os64", protectedSwap := "ps64",
        originalMeta := { status := "success", reason := "", confidence := 90, message := "" },
        protectedMeta := { status := "failed", reason := "", confidence := 10, message := "" } }
      (by decide) (by decide) (by decide) (by decide) (by decide) (by decide)
      rfl rfl rfl (Or.inl (by decide))).1⟩

/-- Reading back through the tenant-scoped lookup after `updateById`
sees the transformed row, for transformers preserving `id` and
`userId`. -/
theorem getRowFor_updateById (db : DB) (id uid : String) (f : Row → Row)
    (hf : ∀ r, (f r).id = r.id ∧ (f r).userId = r.userId) :
    getRowFor (updateById db id f) id uid = (getRowFor db id uid).map f := by
  rw [getRowFor, updateById, getRowFor]
  induction db with
  | nil => rfl
  | cons a l ih =>
    rw [List.map_cons]
    have hpres : ∀ r : Row,
        ((f r).id == id && (f r).userId == uid) = (r.id == id && r.userId == uid) := by
      intro r
      rw [(hf r).1, (hf r).2]
    by_cases ha : (a.id == id) = true
    · rw [if_pos ha]
      by_cases hb : (a.id == id && a.userId == uid) = true
      · simp only [List.find?_cons, hpres a, hb]
        rfl
      · have hb2 : (a.id == id && a.userId == uid) = false := by
          revert hb
          cases a.id == id && a.userId == uid <;> simp
        simp only [List.find?_cons, hpres a, hb2]
        exact ih
    · rw [if_neg ha]
      have ha2 : (a.id == id) = false := by
        revert ha
        cases a.id == id <;> simp
      have hb2 : (a.id == id && a.userId == uid) = false := by
        rw [ha2]
        rfl
      simp only [List.find?_cons, hb2]
      exact ih

/-- The proof route's response never depends on the row's `status`:
two lookups differing only in that field produce the same response. -/
theorem proofPost_resp_eq (ext : Ext) (uid id : String) (d1 d2 : DB) (row : Row)
    (s : Status)
    (h1 : getRowFor d1 id uid = some row)
    (h2 : getRowFor d2 id uid = some { row with status := s }) :
    (proofPost ext (some uid) d1 id).1 = (proofPost ext (some uid) d2 id).1 := by
  rw [proofPost.eq_def, proofPost.eq_def]
  dsimp only
  rw [h1, h2]
  dsimp only
  rw [show cacheHit { row with status := s } = cacheHit row from rfl]
  by_cases hptr : strTruthy row.protectedUrl = true
  · rw [hptr]
    simp only [Bool.not_true, Bool.false_eq_true, if_false]
    by_cases hch : cacheHit row = true
    · simp only [hch, if_true]
    · simp only [Bool.not_eq_true _ ▸ hch, Bool.false_eq_true, if_false]
      cases hp1 : getPathFromUrl row.originalUrl with
      | none => rfl
      | some originalPath =>
        cases hp2 : getPathFromUrl (row.protectedUrl.getD "") with
        | none => rfl
        | some protectedPath =>
          dsimp only
          cases hd1 : ext.download originalPath with
          | error e => rfl
          | ok b1 =>
            cases hd2 : ext.download protectedPath with
            | error e => rfl
            | ok b2 =>
              dsimp only
              cases hpr : ext.prove b1 b2 with
              | error e => rfl
              | ok pd =>
                dsimp only
                cases hu1 : uploadImage ext (origSwapPath uid id) with
                | error e => rfl
                | ok u1 =>
                  cases hu2 : uploadImage ext (protSwapPath uid id) with
                  | error e => rfl
                  | ok u2 => rfl
  · have hptr2 : strTruthy row.protectedUrl = false := by
      revert hptr
      cases strTruthy row.protectedUrl <;> simp
    rw [hptr2]
    rfl

/-- C10: the proof entry point gates on `protectedUrl`, not on
`status` — for every authenticated proof request on an owned row of a
reachable database, a null `protectedUrl` yields the 400
"Image not yet protected" response with the database unchanged and no
external effect; and a non-null `protectedUrl` always gets past that
gate (the response is never the not-protected 400) with a response
that does not depend on the row's status value at all. -/
theorem c10_proof_gate (ext : Ext) (db : DB) (uid id : String) (row : Row)
    (hdb : Reachable db)
    (hrow : getRowFor db id uid = some row) :
    (row.protectedUrl = none →
      proofPost ext (some uid) db id = (.notProtected, db, [])) ∧
    (row.protectedUrl.isSome = true →
      (proofPost ext (some uid) db id).1 ≠ .notProtected ∧
      ∀ s : Status,
        (proofPost ext (some uid)
            (updateById db id (fun r => { r with status := s })) id).1
          = (proofPost ext (some uid) db id).1) := by
  constructor
  · intro hnone
    rw [proofPost.eq_def]
    dsimp only
    rw [hrow]
    dsimp only
    rw [hnone]
    rfl
  · intro hsome
    have hne : ∃ p, row.protectedUrl = some p ∧ p ≠ "" := by
      obtain ⟨p, hp⟩ := Option.isSome_iff_exists.mp hsome
      refine ⟨p, hp, ?_⟩
      exact ((reachable_wf db hdb).2 row (getRowFor_mem db id uid row hrow).1).2.1 p hp
    have hptr : strTruthy row.protectedUrl = true := (strTruthy_iff _).mpr hne
    constructor
    · rw [proofPost.eq_def]
      dsimp only
      rw [hrow]
      dsimp only
      rw [hptr]
      simp only [Bool.not_true, Bool.false_eq_true, if_false]
      by_cases hch : cacheHit row = true
      · simp only [hch, if_true]
        simp
      · simp only [Bool.not_eq_true _ ▸ hch, if_false, Bool.false_eq_true]
        cases hp1 : getPathFromUrl row.originalUrl with
        | none => simp
        | some originalPath =>
          cases hp2 : getPathFromUrl (row.protectedUrl.getD "") with
          | none => simp
          | some protectedPath =>
            dsimp only
            cases hd1 : ext.download originalPath with
            | error e => simp
            | ok originalB64 =>
              cases hd2 : ext.download protectedPath with
              | error e => simp
              | ok protectedB64 =>
                dsimp only
                cases hpr : ext.prove originalB64 protectedB64 with
                | error e => simp
                | ok proofData =>
                  dsimp only
                  cases hu1 : uploadImage ext (origSwapPath uid id) with
                  | error e => simp
                  | ok u1 =>
                    cases hu2 : uploadImage ext (protSwapPath uid id) with
                    | error e => simp
                    | ok u2 => simp
    · intro s
      have hrow2 : getRowFor (updateById db id (fun r => { r with status := s })) id uid
          = some { row with status := s } := by
        rw [getRowFor_updateById db id uid (fun r => { r with status := s })
          (fun r => ⟨rfl, rfl⟩), hrow]
        rfl
      exact (proofPost_resp_eq ext uid id db
        (updateById db id (fun r => { r with status := s })) row s hrow hrow2).symm

/-- Witness for C10 on the completed row of `c2okOps`. -/
theorem c10_witness :
    Reachable (runOps c2okOps) ∧
    getRowFor (runOps c2okOps) "r1" "u1" = some c2okRow ∧
    c2okRow.protectedUrl.isSome = true ∧
    ((proofPost extW (some "u1") (runOps c2okOps) "r1").1 ≠ .notProtected ∧
      ∀ s : Status,
        (proofPost extW (some "u1")
            (updateById (runOps c2okOps) "r1" (fun r => { r with status := s })) "r1").1
          = (proofPost extW (some "u1") (runOps c2okOps) "r1").1) :=
  ⟨⟨c2okOps, rfl⟩, by decide, rfl,
    (c10_proof_gate extW (runOps c2okOps) "u1" "r1" c2okRow ⟨c2okOps, rfl⟩ (by decide)).2 rfl⟩

/-- C8: `deleteImagePair` is idempotent — both the first call and an
immediately repeated call return `success = true`, for every database
and id, in particular when the row is absent at either call (the
return value is unconditional and the row is gone after the first
call). -/
theorem c8_delete_idempotent (db : DB) (id : String) :
    (deleteImagePair db id).1 = true ∧
    (deleteImagePair (deleteImagePair db id).2 id).1 = true ∧
    getRow (deleteImagePair db id).2 id = none := by
  refine ⟨rfl, rfl, ?_⟩
  rw [deleteImagePair, getRow]
  refine List.find?_eq_none.mpr ?_
  intro r hr
  have := List.of_mem_filter hr
  simp only [Bool.not_eq_true'] at this
  simp [this]

/-- A fetch outcome that keeps the poller going: a parsed body whose
status is neither `completed` nor `failed`. -/
def NonTermRes (r : FetchRes) : Prop :=
  ∃ st, r = .ok st ∧ st ≠ .completed ∧ st ≠ .failed

/-- Non-terminal for the older poller, which has no ok-check: a non-ok
response body also just lacks a terminal status. -/
def MobNonTermRes (r : FetchRes) : Prop :=
  r = .notOk ∨ NonTermRes r

theorem webPollGo_timeout (fetch : Nat → FetchRes) :
    ∀ rem a, (∀ k, a ≤ k → k < a + rem → NonTermRes (fetch k)) → 1 ≤ rem →
      webPollGo fetch a rem = .timeout := by
  intro rem
  induction rem with
  | zero =>
    intro a _ h1
    omega
  | succ rem ih =>
    intro a hall _
    obtain ⟨st, hst, hc, hf⟩ := hall a (le_refl a) (by omega)
    rw [webPollGo, hst]
    dsimp only
    have hcf : (st == Status.completed || st == Status.failed) = false := by
      simp [Bool.or_eq_false_iff, beq_eq_false_iff_ne, hc, hf]
    rw [hcf]
    simp only [Bool.false_eq_true, if_false]
    by_cases hrem : rem = 0
    · subst hrem
      rfl
    · have h0 : (rem == 0) = false := by simp [hrem]
      rw [h0]
      simp only [Bool.false_eq_true, if_false]
      exact ih (a + 1) (fun k hk1 hk2 => hall k (by omega) (by omega)) (by omega)

theorem webPollGo_transport (fetch : Nat → FetchRes) :
    ∀ rem a k, a ≤ k → k < a + rem → fetch k = .transport →
      (∀ j, a ≤ j → j < k → NonTermRes (fetch j)) →
      webPollGo fetch a rem = .aborted := by
  intro rem
  induction rem with
  | zero =>
    intro a k h1 h2 _ _
    omega
  | succ rem ih =>
    intro a k h1 h2 ht hall
    by_cases hk : k = a
    · subst hk
      rw [webPollGo, ht]
    · obtain ⟨st, hst, hc, hf⟩ := hall a (le_refl a) (by omega)
      rw [webPollGo, hst]
      dsimp only
      have hcf : (st == Status.completed || st == Status.failed) = false := by
        simp [Bool.or_eq_false_iff, beq_eq_false_iff_ne, hc, hf]
      rw [hcf]
      simp only [Bool.false_eq_true, if_false]
      have hrem : rem ≠ 0 := by omega
      have h0 : (rem == 0) = false := by simp [hrem]
      rw [h0]
      simp only [Bool.false_eq_true, if_false]
      exact ih (a + 1) k (by omega) (by omega) ht
        (fun j hj1 hj2 => hall j (by omega) (by omega))

theorem mobPollGo_gaveUp (fetch : Nat → FetchRes) :
    ∀ rem a, (∀ k, a ≤ k → k < a + rem → MobNonTermRes (fetch k)) → 1 ≤ rem →
      mobPollGo fetch a rem = .gaveUp := by
  intro rem
  induction rem with
  | zero =>
    intro a _ h1
    omega
  | succ rem ih =>
    intro a hall _
    have hnext : (rem == 0) = false → mobPollGo fetch (a + 1) rem = .gaveUp := by
      intro h0
      exact ih (a + 1) (fun k hk1 hk2 => hall k (by omega) (by omega))
        (by revert h0; cases rem <;> simp)
    rcases hall a (le_refl a) (by omega) with hno | ⟨st, hst, hc, hf⟩
    · rw [mobPollGo, hno]
      dsimp only
      by_cases hrem : rem = 0
      · subst hrem
        rfl
      · have h0 : (rem == 0) = false := by simp [hrem]
        rw [h0]
        simp only [Bool.false_eq_true, if_false]
        exact hnext h0
    · rw [mobPollGo, hst]
      dsimp only
      have hcf : (st == Status.completed || st == Status.failed) = false := by
        simp [Bool.or_eq_false_iff, beq_eq_false_iff_ne, hc, hf]
      rw [hcf]
      simp only [Bool.false_eq_true, if_false]
      by_cases hrem : rem = 0
      · subst hrem
        rfl
      · have h0 : (rem == 0) = false := by simp [hrem]
        rw [h0]
        simp only [Bool.false_eq_true, if_false]
        exact hnext h0

theorem mobPollGo_transport (fetch : Nat → FetchRes) :
    ∀ rem a k, a ≤ k → k < a + rem → fetch k = .transport →
      (∀ j, a ≤ j → j < k → MobNonTermRes (fetch j)) →
      mobPollGo fetch a rem = .aborted := by
  intro rem
  induction rem with
  | zero =>
    intro a k h1 h2 _ _
    omega
  | succ rem ih =>
    intro a k h1 h2 ht hall
    by_cases hk : k = a
    · subst hk
      rw [mobPollGo, ht]
    · have hrem : rem ≠ 0 := by omega
      have h0 : (rem == 0) = false := by simp [hrem]
      have hnext : mobPollGo fetch (a + 1) rem = .aborted :=
        ih (a + 1) k (by omega) (by omega) ht
          (fun j hj1 hj2 => hall j (by omega) (by omega))
      rcases hall a (le_refl a) (by omega) with hno | ⟨st, hst, hc, hf⟩
      · rw [mobPollGo, hno]
        dsimp only
        rw [h0]
        simp only [Bool.false_eq_true, if_false]
        exact hnext
      · rw [mobPollGo, hst]
        dsimp only
        have hcf : (st == Status.completed || st == Status.failed) = false := by
          simp [Bool.or_eq_false_iff, beq_eq_false_iff_ne, hc, hf]
        rw [hcf]
        simp only [Bool.false_eq_true, if_false]
        rw [h0]
        simp only [Bool.false_eq_true, if_false]
        exact hnext

/-- C5, counterexample: the claim asserts that every variant, on
reaching the attempt ceiling without a terminal status, sets a local
failed state and surfaces a timeout-specific error message; the older
30-attempt variant instead stops silently — after 30 pending polls it
gives up with no error message and no local failed state (its `poll`
never calls `setError` and never synthesizes a failed status). -/
theorem c5_counterexample :
    mobPollRun (fun _ => .ok .pending) = .gaveUp ∧
    mobErrorMsg .gaveUp = none ∧
    mobSetsLocalFailed .gaveUp = false := by
  refine ⟨by decide, rfl, rfl⟩

/-- C5 (amended): both pollers use a fixed 1000 ms interval with caps
of 60 (web) and 30 (older variant).  The web variant behaves as the
claim states: at the ceiling it sets a local failed state and surfaces
the timeout message, which differs from the backend-failure message,
and on a transport error it aborts immediately with the generic
message.  The older variant stops silently at the ceiling (no failed
state, no message) and aborts silently on a transport error. -/
theorem c5_poller_behavior :
    (webMaxAttempts = 60 ∧ mobMaxAttempts = 30 ∧ pollIntervalMs = 1000) ∧
    (∀ fetch, (∀ k, 1 ≤ k → k ≤ webMaxAttempts → NonTermRes (fetch k)) →
      webPollRun fetch = .timeout ∧ webErrorMsg .timeout = some webTimeoutText ∧
      webSetsLocalFailed .timeout = true ∧ webTimeoutText ≠ webBackendFailText) ∧
    (∀ fetch k, 1 ≤ k → k ≤ webMaxAttempts → fetch k = .transport →
      (∀ j, 1 ≤ j → j < k → NonTermRes (fetch j)) →
      webPollRun fetch = .aborted ∧ webErrorMsg .aborted = some webGenericText) ∧
    (∀ fetch, (∀ k, 1 ≤ k → k ≤ mobMaxAttempts → MobNonTermRes (fetch k)) →
      mobPollRun fetch = .gaveUp ∧ mobErrorMsg .gaveUp = none ∧
      mobSetsLocalFailed .gaveUp = false) ∧
    (∀ fetch k, 1 ≤ k → k ≤ mobMaxAttempts → fetch k = .transport →
      (∀ j, 1 ≤ j → j < k → MobNonTermRes (fetch j)) →
      mobPollRun fetch = .aborted ∧ mobErrorMsg .aborted = none) := by
  refine ⟨⟨rfl, rfl, rfl⟩, ?_, ?_, ?_, ?_⟩
  · intro fetch hall
    refine ⟨?_, rfl, rfl, by decide⟩
    exact webPollGo_timeout fetch webMaxAttempts 1
      (fun k hk1 hk2 => hall k hk1 (by omega)) (by decide)
  · intro fetch k hk1 hk2 ht hall
    refine ⟨?_, rfl⟩
    exact webPollGo_transport fetch webMaxAttempts 1 k hk1 (by omega) ht
      (fun j hj1 hj2 => hall j hj1 hj2)
  · intro fetch hall
    refine ⟨?_, rfl, rfl⟩
    exact mobPollGo_gaveUp fetch mobMaxAttempts 1
      (fun k hk1 hk2 => hall k hk1 (by omega)) (by decide)
  · intro fetch k hk1 hk2 ht hall
    refine ⟨?_, rfl⟩
    exact mobPollGo_transport fetch mobMaxAttempts 1 k hk1 (by omega) ht
      (fun j hj1 hj2 => hall j hj1 hj2)

/-- Witness for C5 (amended): all-pending runs of both pollers and an
immediately failing transport for the web poller. -/
theorem c5_witness :
    (webPollRun (fun _ => .ok .pending) = .timeout ∧
      webErrorMsg .timeout = some webTimeoutText ∧
      webSetsLocalFailed .timeout = true ∧ webTimeoutText ≠ webBackendFailText) ∧
    (mobPollRun (fun _ => .ok .pending) = .gaveUp ∧ mobErrorMsg .gaveUp = none ∧
      mobSetsLocalFailed .gaveUp = false) ∧
    (webPollRun (fun _ => .transport) = .aborted ∧
      webErrorMsg .aborted = some webGenericText) :=
  ⟨c5_poller_behavior.2.1 (fun _ => .ok .pending)
      (fun k hk1 hk2 => ⟨.pending, rfl, by decide, by decide⟩),
    c5_poller_behavior.2.2.2.1 (fun _ => .ok .pending)
      (fun k hk1 hk2 => Or.inr ⟨.pending, rfl, by decide, by decide⟩),
    c5_poller_behavior.2.2.1 (fun _ => .transport) 1 (le_refl 1) (by decide) rfl
      (fun j hj1 hj2 => absurd hj1 (by omega))⟩

end Cloaked
